import Mathlib

/-!
Verification development for gitslurp.py, a single-file git history
analyzer.  The Python source is shallowly embedded: the subprocess
boundary is modelled by a `CmdResult` record (exit code, stdout, stderr)
and an environment `GitEnv` mapping each git invocation made by the
program to its result; every parsing and aggregation function of the
source is translated into an executable Lean definition; the uncaught
`ValueError` that `int` can raise inside `format_timestamp` is modelled
with `Except`; `print` progress calls are modelled as an accumulated
list of structured `Msg` values.
-/

/-- Whitespace characters stripped by Python `str.strip()` (ASCII subset:
space, tab, newline, carriage return, vertical tab, form feed; CPython
additionally strips non-ASCII Unicode whitespace, which git's output does
not contain and which is not modelled). -/
def isPySpace (c : Char) : Bool :=
  c.toNat = 32 || c.toNat = 9 || c.toNat = 10 || c.toNat = 13 || c.toNat = 11 || c.toNat = 12

/-- Strip `isPySpace` characters from both ends of a character list. -/
def pyStripChars (cs : List Char) : List Char :=
  ((cs.dropWhile isPySpace).reverse.dropWhile isPySpace).reverse

/-- Python `str.strip()`. -/
def pyStrip (s : String) : String := ⟨pyStripChars s.data⟩

/-- Split a character list on every occurrence of a separator character,
with Python `str.split(sep)` semantics: no collapsing of adjacent
separators, and the empty input yields one empty group. -/
def splitChar (sep : Char) : List Char → List (List Char)
  | [] => [[]]
  | c :: rest =>
    let r := splitChar sep rest
    if c = sep then [] :: r
    else
      match r with
      | g :: gs => (c :: g) :: gs
      | [] => [[c]]

/-- Python `s.split(sep)` for a single-character separator (the source
only splits on the single characters pipe, tab, newline and slash). -/
def pySplit (s : String) (sep : Char) : List String :=
  (splitChar sep s.data).map fun l => ⟨l⟩

/-- Digit-run parser used by the model of Python `int()`: consumes an
already-started run of ASCII digits in which single underscores may
appear between digits (CPython's grouping rule), returning the value. -/
def pyDigitsVal : List Char → Nat → Option Nat
  | [], acc => some acc
  | '_' :: d :: rest, acc =>
    if d.isDigit then pyDigitsVal rest (acc * 10 + (d.toNat - 48)) else none
  | ['_'], _ => none
  | c :: rest, acc =>
    if c.isDigit then pyDigitsVal rest (acc * 10 + (c.toNat - 48)) else none

/-- Model of Python `int(s)` on a string argument: strip whitespace,
allow one optional sign, then ASCII digits with single underscores
between digits; anything else raises `ValueError`, modelled as `none`.
(CPython additionally accepts non-ASCII decimal digits, which git's
output never contains; not modelled.) -/
def pyIntOfString (s : String) : Option Int :=
  match pyStripChars s.data with
  | [] => none
  | '-' :: rest =>
    match rest with
    | d :: _ => if d.isDigit then (pyDigitsVal rest 0).map (fun n => -(n : Int)) else none
    | [] => none
  | '+' :: rest =>
    match rest with
    | d :: _ => if d.isDigit then (pyDigitsVal rest 0).map (fun n => (n : Int)) else none
    | [] => none
  | d :: rest =>
    if d.isDigit then (pyDigitsVal (d :: rest) 0).map (fun n => (n : Int)) else none

/-- Result of one external `git` subprocess invocation: exit status and
the captured output streams. -/
structure CmdResult where
  exitCode : Int
  stdout : String
  stderr : String
deriving DecidableEq

/-- Embedding of `GitAnalyzer.run_git_command` (gitslurp.py lines 11-25).
`subprocess.run(..., check=True)` raises `CalledProcessError` exactly
when the exit status is nonzero; the function catches that exception,
prints a diagnostic, and returns `None`; on success it returns
`result.stdout.strip()`.  The sentinel `None` is modelled as `none`; the
printed diagnostic carries no data into the caller and is not part of
the returned value. -/
def run_git_command (r : CmdResult) : Option String :=
  if r.exitCode = 0 then some (pyStrip r.stdout) else none

/-- The external world seen by one `GitAnalyzer` run: the constructor
argument `repo_path` plus the result of each git command the analyzer
can issue (`git config --get remote.origin.url`, `git log` with the
pipe-separated format, and `git show --numstat` per commit hash). -/
structure GitEnv where
  repo_path : String
  configResult : CmdResult
  logResult : CmdResult
  showResult : String → CmdResult

/-- Embedding of `posixpath.basename` (used via `os.path.basename`):
everything after the last slash. -/
def os_path_basename (p : String) : String :=
  (pySplit p '/').getLastD ""

/-- Embedding of `posixpath.dirname` (used via `os.path.dirname`):
everything up to the last slash, with trailing slashes stripped unless
the result consists only of slashes. -/
def os_path_dirname (p : String) : String :=
  match (pySplit p '/').dropLast with
  | [] => ""
  | front =>
    let head := String.intercalate "/" front ++ "/"
    if head.data.all (fun c => c = '/') then head
    else ⟨(head.data.reverse.dropWhile (fun c => c = '/')).reverse⟩

/-- Python `s.endswith(suffix)`: the last characters of `s` are exactly
the suffix. -/
def pyEndsWith (s : String) (suffix : String) : Bool :=
  decide (s.data.reverse.take suffix.data.length = suffix.data.reverse)

/-- Python slice `s[:-n]`: drop the last `n` characters (everything if
fewer remain). -/
def pyDropLast (s : String) (n : Nat) : String :=
  ⟨(s.data.reverse.drop n).reverse⟩

/-- Embedding of `GitAnalyzer.get_repository_name` (lines 27-42): if the
remote URL query succeeds with nonempty output, take the last
slash-separated segment and strip one trailing ".git"; otherwise fall
back to the base name of the parent directory of `repo_path`.
`repo_name.endswith(".git")` is rendered as `pyEndsWith` and the slice
`repo_name[:-4]` as `pyDropLast`. -/
def get_repository_name (env : GitEnv) : String :=
  match run_git_command env.configResult with
  | none => os_path_basename (os_path_dirname env.repo_path)
  | some remote_url =>
    if remote_url = "" then os_path_basename (os_path_dirname env.repo_path)
    else
      let repo_name := (pySplit remote_url '/').getLastD ""
      if pyEndsWith repo_name ".git" then pyDropLast repo_name 4 else repo_name

/-- The aggregate returned by `get_commit_details`. -/
structure Details where
  linesAdded : Int
  linesRemoved : Int
  filesModified : List String
deriving DecidableEq

/-- Value of one numstat count field as computed inside the `try` block
of `get_commit_details`: `int(parts[k]) if parts[k] != '-' else 0`; a
`ValueError` from `int` is modelled as `none`. -/
def fieldVal (s : String) : Option Int :=
  if s = "-" then some 0 else pyIntOfString s

/-- One iteration of the loop body of `get_commit_details` (lines
57-71): skip empty lines and lines with fewer than three tab-separated
fields; if either count field raises `ValueError` the whole line is
skipped (the `try` covers the computation of both counts and the
filename before any accumulator is updated); otherwise add both counts
and append the filename. -/
def processStatLine (acc : Details) (line : String) : Details :=
  if line = "" then acc
  else
    match pySplit line '\t' with
    | p0 :: p1 :: p2 :: _ =>
      match fieldVal p0, fieldVal p1 with
      | some added, some removed =>
        ⟨acc.linesAdded + added, acc.linesRemoved + removed, acc.filesModified ++ [p2]⟩
      | _, _ => acc
    | _ => acc

/-- The line list iterated by `get_commit_details`:
`output.strip().split('\n')`. -/
def splitLines (output : String) : List String :=
  pySplit (pyStrip output) '\n'

/-- Body of `GitAnalyzer.get_commit_details` (lines 44-77) as a function
of the value returned by `run_git_command` for the `git show --numstat`
invocation: `if not output` (both `None` and the empty string are falsy)
yields zeros and no files; otherwise the stat lines are folded through
`processStatLine`. -/
def detailsOfOutput : Option String → Details
  | none => ⟨0, 0, []⟩
  | some output =>
    if output = "" then ⟨0, 0, []⟩
    else (splitLines output).foldl processStatLine ⟨0, 0, []⟩

/-- Embedding of `GitAnalyzer.get_commit_details` for a given
environment and commit hash. -/
def get_commit_details (env : GitEnv) (commit_hash : String) : Details :=
  detailsOfOutput (run_git_command (env.showResult commit_hash))

/-- Fuel-driven helper for `natDigits` (structural recursion on the
fuel keeps the definition kernel-reducible; any fuel above the digit
count gives the same value). -/
def natDigitsAux : Nat → Nat → List Char
  | 0, _ => []
  | fuel + 1, n =>
    if n < 10 then [Char.ofNat (48 + n)]
    else natDigitsAux fuel (n / 10) ++ [Char.ofNat (48 + n % 10)]

/-- Decimal digits of a natural number, most significant first. -/
def natDigits (n : Nat) : List Char := natDigitsAux (n + 1) n

/-- Decimal rendering of a natural number (the behaviour of Python
`str` on a non-negative `int`, and of glibc `strftime` `%Y` for years
at least 1, which is not zero-padded below four digits). -/
def natRepr (n : Nat) : String := ⟨natDigits n⟩

/-- Two-digit zero-padded decimal rendering (`strftime` `%m`, `%d`,
`%H`, `%M`, `%S`). -/
def pad2 (n : Nat) : String :=
  ⟨(if n < 10 then ['0'] else []) ++ natDigits n⟩

/-- Proleptic Gregorian calendar date for a day count relative to
1970-01-01 (the arithmetic performed by
`datetime.utcfromtimestamp`), returned as (year, month, day). -/
def civilFromDays (z0 : Int) : Int × Int × Int :=
  let z := z0 + 719468
  let era := z.fdiv 146097
  let doe := z - era * 146097
  let yoe := (doe - doe.fdiv 1460 + doe.fdiv 36524 - doe.fdiv 146096).fdiv 365
  let y := yoe + era * 400
  let doy := doe - (365 * yoe + yoe.fdiv 4 - yoe.fdiv 100)
  let mp := (5 * doy + 2).fdiv 153
  let d := doy - (153 * mp + 2).fdiv 5 + 1
  let m := mp + (if mp < 10 then 3 else (-9 : Int))
  (y + (if m ≤ 2 then 1 else 0), m, d)

/-- Rendering of `datetime.utcfromtimestamp(t).strftime('%Y-%m-%dT%H:%M:%SZ')`
for an integer timestamp `t` inside datetime's representable range. -/
def strftimeISO (t : Int) : String :=
  let days := t.fdiv 86400
  let secs := (t.fmod 86400).toNat
  let ymd := civilFromDays days
  natRepr ymd.1.toNat ++ "-" ++ pad2 ymd.2.1.toNat ++ "-" ++ pad2 ymd.2.2.toNat ++ "T"
    ++ pad2 (secs / 3600) ++ ":" ++ pad2 (secs % 3600 / 60) ++ ":" ++ pad2 (secs % 60) ++ "Z"

/-- Embedding of `GitAnalyzer.format_timestamp` (lines 79-82):
`int(unix_timestamp)` may raise `ValueError`, and
`datetime.utcfromtimestamp` raises for timestamps outside year range
1..9999 (below -62135596800 or above 253402300799 seconds); both
uncaught exceptions are modelled as `none`. -/
def format_timestamp (unix_timestamp : String) : Option String :=
  match pyIntOfString unix_timestamp with
  | none => none
  | some t =>
    if -62135596800 ≤ t ∧ t ≤ 253402300799 then some (strftimeISO t) else none

/-- Exceptions that escape the analyzer uncaught (the `ValueError`
family raised inside `format_timestamp`). -/
inductive PyErr where
  | valueError
deriving DecidableEq

/-- Structured model of the progress lines printed by `get_commits`:
`Processing N commits...` at the start and `Processed I/N commits...`
inside the loop. -/
inductive Msg where
  | processing (total : Nat)
  | processed (done : Nat) (total : Nat)
deriving DecidableEq

/-- One record of the commits list built by `get_commits`. -/
structure Commit where
  hash : String
  author : String
  email : String
  timestamp : String
  linesAdded : Int
  linesRemoved : Int
  filesModified : List String
deriving DecidableEq

/-- The `for i, line in enumerate(commit_lines)` loop of `get_commits`
(lines 99-122): empty lines and lines with fewer than four
pipe-separated fields are skipped; for the others the commit details are
fetched, the timestamp is formatted (an uncaught `ValueError` aborts the
whole call), the record is appended, and a progress message is printed
whenever the one-based line index is divisible by ten. -/
def processLines (env : GitEnv) (total : Nat) :
    Nat → List String → List Commit → List Msg → Except PyErr (List Commit × List Msg)
  | _, [], commits, msgs => .ok (commits, msgs)
  | i, line :: rest, commits, msgs =>
    if line = "" then processLines env total (i + 1) rest commits msgs
    else
      match pySplit line '|' with
      | p0 :: p1 :: p2 :: p3 :: _ =>
        let details := get_commit_details env p0
        match format_timestamp p3 with
        | none => .error .valueError
        | some ts =>
          let commit : Commit :=
            ⟨p0, p1, p2, ts, details.linesAdded, details.linesRemoved, details.filesModified⟩
          let msgs2 := if (i + 1) % 10 = 0 then msgs ++ [Msg.processed (i + 1) total] else msgs
          processLines env total (i + 1) rest (commits ++ [commit]) msgs2
      | _ => processLines env total (i + 1) rest commits msgs

/-- Embedding of `GitAnalyzer.get_commits` (lines 84-124) as a function
of the environment (the `-n limit` cap is part of the `git log`
invocation whose result `logResult` records): a failed or empty history
query returns the empty list with no output; otherwise the initial
`Processing N commits...` line is printed and the lines are processed in
order. -/
def get_commits (env : GitEnv) : Except PyErr (List Commit × List Msg) :=
  match run_git_command env.logResult with
  | none => .ok ([], [])
  | some output =>
    if output = "" then .ok ([], [])
    else
      let commit_lines := pySplit output '\n'
      processLines env commit_lines.length 0 commit_lines [] [Msg.processing commit_lines.length]

/-- The history lines `get_commits` iterates over: empty when the
history query fails or returns nothing. -/
def historyLines (env : GitEnv) : List String :=
  match run_git_command env.logResult with
  | none => []
  | some output => if output = "" then [] else pySplit output '\n'

/-- Commits list of a completed `get_commits` run (empty if the run
raised). -/
def resultCommits (env : GitEnv) : List Commit :=
  match get_commits env with
  | .ok p => p.1
  | .error _ => []

/-- Progress messages of a completed `get_commits` run. -/
def resultMsgs (env : GitEnv) : List Msg :=
  match get_commits env with
  | .ok p => p.2
  | .error _ => []

/-- A history line on which the loop body of `get_commits` cannot raise:
either it is skipped (fewer than four pipe-separated fields) or its
fourth field survives `format_timestamp`. -/
def lineOk (line : String) : Bool :=
  match pySplit line '|' with
  | _ :: _ :: _ :: p3 :: _ => (format_timestamp p3).isSome
  | _ => true

/-- All history lines of the environment are `lineOk`. -/
abbrev goodHistory (env : GitEnv) : Prop :=
  (historyLines env).all lineOk = true

/-- A history line that produces a commit record: nonempty with at least
four pipe-separated fields (an empty line splits into one field, so the
field-count test subsumes the `if line` test). -/
def commitLineB (line : String) : Bool :=
  decide (4 ≤ (pySplit line '|').length)

/-- Decidable equality of run results, for concrete evaluation. -/
instance exceptDecEq {e a : Type} [DecidableEq e] [DecidableEq a] :
    DecidableEq (Except e a)
  | .ok x, .ok y =>
    if h : x = y then .isTrue (by rw [h])
    else .isFalse (fun hc => h (by injection hc))
  | .ok _, .error _ => .isFalse (fun hc => Except.noConfusion hc)
  | .error _, .ok _ => .isFalse (fun hc => Except.noConfusion hc)
  | .error x, .error y =>
    if h : x = y then .isTrue (by rw [h])
    else .isFalse (fun hc => h (by injection hc))

/-- The analysis report assembled by `analyze_repository`. -/
structure Report where
  repository : String
  commits : List Commit
deriving DecidableEq

/-- Embedding of `GitAnalyzer.analyze_repository` (lines 126-140): the
repository name and the commits list composed into a report (its two
banner prints carry no data and are not modelled). -/
def analyze_repository (env : GitEnv) : Except PyErr Report :=
  match get_commits env with
  | .ok p => .ok ⟨get_repository_name env, p.1⟩
  | .error e => .error e

/-- The row one numstat line contributes to the `try` block: its first
three tab-separated fields, or nothing when the line is empty or has
fewer than three fields. -/
def rowOfLine (line : String) : Option (String × String × String) :=
  if line = "" then none
  else
    match pySplit line '\t' with
    | p0 :: p1 :: p2 :: _ => some (p0, p1, p2)
    | _ => none

/-- Rows of a numstat output that reach the `try` block: nonempty lines
with at least three tab-separated fields, reduced to their first three
fields. -/
def statRows (lines : List String) : List (String × String × String) :=
  lines.filterMap rowOfLine

/-- The rows of one commit's numstat output string. -/
def numstatRows (output : String) : List (String × String × String) :=
  statRows (splitLines output)

/-- Sum of the added-count fields of the given rows, a dash counting as
zero (the reading of the specification). -/
def rowsAdded (rows : List (String × String × String)) : Int :=
  (rows.map fun r => (fieldVal r.1).getD 0).sum

/-- Sum of the removed-count fields of the given rows, a dash counting
as zero. -/
def rowsRemoved (rows : List (String × String × String)) : Int :=
  (rows.map fun r => (fieldVal r.2.1).getD 0).sum

/-- File paths of the given rows in order. -/
def rowsFiles (rows : List (String × String × String)) : List String :=
  rows.map fun r => r.2.2

/-- Every count field of every row is a dash or a parseable integer. -/
abbrev rowsParse (rows : List (String × String × String)) : Prop :=
  ∀ r ∈ rows, (fieldVal r.1).isSome ∧ (fieldVal r.2.1).isSome

/-- Both count fields of the row, where they parse at all, are
non-negative. -/
def rowOkNonneg (r : String × String × String) : Bool :=
  (match fieldVal r.1 with
   | some v => decide (0 ≤ v)
   | none => true) &&
  (match fieldVal r.2.1 with
   | some v => decide (0 ≤ v)
   | none => true)

/-- Every row of the numstat output behind this `run_git_command` result
satisfies `rowOkNonneg`. -/
def statsOkB : Option String → Bool
  | none => true
  | some out => (statRows (splitLines out)).all rowOkNonneg

/-- The commit record one history line contributes, if any: `none` for
lines that are skipped or that raise inside `format_timestamp`. -/
def recordOfLine (env : GitEnv) (line : String) : Option Commit :=
  if line = "" then none
  else
    match pySplit line '|' with
    | p0 :: p1 :: p2 :: p3 :: _ =>
      match format_timestamp p3 with
      | some ts =>
        some ⟨p0, p1, p2, ts, (get_commit_details env p0).linesAdded,
          (get_commit_details env p0).linesRemoved, (get_commit_details env p0).filesModified⟩
      | none => none
    | _ => none

/-- The in-loop progress messages the source emits while scanning the
given lines starting at index `i`: one message per line whose one-based
index is divisible by ten and which produced a record. -/
def progressMsgs (env : GitEnv) (total : Nat) : Nat → List String → List Msg
  | _, [] => []
  | i, line :: rest =>
    (if (recordOfLine env line).isSome ∧ (i + 1) % 10 = 0
     then [Msg.processed (i + 1) total] else []) ++ progressMsgs env total (i + 1) rest

/-- All messages a completed `get_commits` run prints: nothing for an
empty history, otherwise the announcement followed by the in-loop
progress messages. -/
def msgSpec (env : GitEnv) : List Msg :=
  if historyLines env = [] then []
  else
    Msg.processing (historyLines env).length ::
      progressMsgs env (historyLines env).length 0 (historyLines env)

/-- The run completed without an uncaught exception. -/
def runOk (r : Except PyErr (List Commit × List Msg)) : Bool :=
  match r with
  | .ok _ => true
  | .error _ => false

/-- Environment for the worked example of the specification: one
history line `abc123|Ada|ada@x.com|1700000000` and numstat output
`10  2  file.go` (tab-separated). -/
def envTimestampDemo : GitEnv :=
  ⟨"/work/repo", ⟨1, "", ""⟩, ⟨0, "abc123|Ada|ada@x.com|1700000000", ""⟩,
    fun _ => ⟨0, "10\t2\tfile.go", ""⟩⟩

/-- Environment whose history output has a four-field line with a
non-integer fourth field. -/
def envBadTimestamp : GitEnv :=
  ⟨"/work/repo", ⟨1, "", ""⟩, ⟨0, "a|b|c|x", ""⟩, fun _ => ⟨0, "", ""⟩⟩

/-- Environment with ten history lines, the first malformed and the
other nine identical valid commit lines; per-commit details are
empty. -/
def envTenLines : GitEnv :=
  ⟨"/work/repo", ⟨1, "", ""⟩,
    ⟨0, "bad\nh|a|e|0\nh|a|e|0\nh|a|e|0\nh|a|e|0\nh|a|e|0\nh|a|e|0\nh|a|e|0\nh|a|e|0\nh|a|e|0", ""⟩,
    fun _ => ⟨0, "", ""⟩⟩

/-- The record each valid line of `envTenLines` produces. -/
def recTen : Commit := ⟨"h", "a", "e", "1970-01-01T00:00:00Z", 0, 0, []⟩

/-- Environment whose single commit's numstat output carries a negative
added-count field. -/
def envNegativeCounts : GitEnv :=
  ⟨"/work/repo", ⟨1, "", ""⟩, ⟨0, "h|a|e|0", ""⟩, fun _ => ⟨0, "-5\t3\tf.txt", ""⟩⟩

/-- The record `envNegativeCounts` produces. -/
def recNegative : Commit := ⟨"h", "a", "e", "1970-01-01T00:00:00Z", -5, 3, ["f.txt"]⟩

/-- Environment with the specification's example remote URL. -/
def envGitRemote : GitEnv :=
  ⟨"/home/u/work/checkout", ⟨0, "https://example.com/org/my-repo.git", ""⟩,
    ⟨1, "", ""⟩, fun _ => ⟨1, "", ""⟩⟩

/-- Environment whose remote URL's final segment is exactly ".git". -/
def envDotGitRemote : GitEnv :=
  ⟨"/home/u/work/checkout", ⟨0, "https://example.com/org/.git", ""⟩,
    ⟨1, "", ""⟩, fun _ => ⟨1, "", ""⟩⟩

/-- Environment with no configured remote (config query fails). -/
def envNoRemote : GitEnv :=
  ⟨"/home/u/work/checkout", ⟨1, "", "error: key does not contain a section"⟩,
    ⟨1, "", ""⟩, fun _ => ⟨1, "", ""⟩⟩

/-- Environment with one valid commit line whose per-commit detail
query fails. -/
def envDetailFailure : GitEnv :=
  ⟨"/work/repo", ⟨1, "", ""⟩, ⟨0, "h|a|e|5", ""⟩, fun _ => ⟨1, "", "fatal: bad object"⟩⟩

/-- Environment with one valid line, one short line and one two-field
line, all timestamps parseable. -/
def envMixedLines : GitEnv :=
  ⟨"/work/repo", ⟨1, "", ""⟩, ⟨0, "a|b|c|5\nshort\nx|y", ""⟩, fun _ => ⟨0, "", ""⟩⟩

/-- Environment whose single commit's numstat output has two rows, one
of them a dash-marked binary file. -/
def envTwoRows : GitEnv :=
  ⟨"/work/repo", ⟨1, "", ""⟩, ⟨0, "h|a|e|0", ""⟩,
    fun _ => ⟨0, "10\t2\tfile.go\n-\t-\timg.png", ""⟩⟩

/-- Environment whose single commit has ordinary positive counts. -/
def envPositiveCounts : GitEnv :=
  ⟨"/work/repo", ⟨1, "", ""⟩, ⟨0, "h|a|e|0", ""⟩, fun _ => ⟨0, "1\t2\ta", ""⟩⟩

/-- The record `envPositiveCounts` produces. -/
def recPositive : Commit := ⟨"h", "a", "e", "1970-01-01T00:00:00Z", 1, 2, ["a"]⟩

/-- JSON values, restricted to the forms the report serializer emits
(strings, integers, arrays, objects with ordered members; Python dicts
preserve insertion order). -/
inductive Json where
  | str (s : String)
  | int (n : Int)
  | arr (items : List Json)
  | obj (members : List (String × Json))

/-- The Python dict built for one commit at gitslurp.py lines 108-116,
as a JSON value (keys in construction order). -/
def commitToJson (c : Commit) : Json :=
  .obj [("hash", .str c.hash), ("author", .str c.author), ("email", .str c.email),
    ("timestamp", .str c.timestamp), ("linesAdded", .int c.linesAdded),
    ("linesRemoved", .int c.linesRemoved),
    ("filesModified", .arr (c.filesModified.map Json.str))]

/-- The Python dict returned by `analyze_repository` (lines 137-140), as
a JSON value. -/
def reportToJson (r : Report) : Json :=
  .obj [("repository", .str r.repository), ("commits", .arr (r.commits.map commitToJson))]

/-- Lowercase hexadecimal digit, as emitted by Python's `\u` escapes. -/
def hexDigitChar (n : Nat) : Char :=
  if n < 10 then Char.ofNat (48 + n) else Char.ofNat (87 + n)

/-- Four lowercase hexadecimal digits of a value below 65536. -/
def hex4 (n : Nat) : List Char :=
  [hexDigitChar (n / 4096 % 16), hexDigitChar (n / 256 % 16),
    hexDigitChar (n / 16 % 16), hexDigitChar (n % 16)]

/-- Modelled from the spec: the per-character escaping of CPython's
`json.dump` with its default `ensure_ascii=True` (stdlib code absent
from src/): quote and backslash get a backslash escape, the five
control characters with short escapes use them, other printable ASCII
is emitted literally, and everything else becomes `\u` escapes, with a
surrogate pair for characters beyond the basic multilingual plane. -/
def escapeChar (c : Char) : List Char :=
  if c = '"' then ['\\', '"']
  else if c = '\\' then ['\\', '\\']
  else if c = '\n' then ['\\', 'n']
  else if c = '\r' then ['\\', 'r']
  else if c = '\t' then ['\\', 't']
  else if c.toNat = 8 then ['\\', 'b']
  else if c.toNat = 12 then ['\\', 'f']
  else if 32 ≤ c.toNat ∧ c.toNat < 127 then [c]
  else if c.toNat < 65536 then '\\' :: 'u' :: hex4 c.toNat
  else
    ('\\' :: 'u' :: hex4 (55296 + (c.toNat - 65536) / 1024)) ++
      ('\\' :: 'u' :: hex4 (56320 + (c.toNat - 65536) % 1024))

/-- JSON rendering of a string: quote, escaped characters, quote. -/
def renderString (s : String) : List Char :=
  '"' :: s.data.flatMap escapeChar ++ ['"']

/-- JSON rendering of an integer (Python `str` on an `int`). -/
def renderInt (i : Int) : List Char :=
  if i < 0 then '-' :: natDigits (-i).toNat else natDigits i.toNat

/-- Indentation: `n` spaces. -/
def wsp (n : Nat) : List Char := List.replicate n ' '

/-- Items of the `filesModified` array after the first, each on its own
line at indent 8, then the closing bracket at indent 6 (`json.dump`
with `indent=2`, the array sitting at nesting depth 3). -/
def renderFilesRest : List String → List Char
  | [] => '\n' :: wsp 6 ++ [']']
  | f :: fs => ',' :: '\n' :: wsp 8 ++ renderString f ++ renderFilesRest fs

/-- The `filesModified` array: `[]` when empty, otherwise one item per
line. -/
def renderFiles : List String → List Char
  | [] => ['[', ']']
  | f :: fs => '[' :: '\n' :: wsp 8 ++ renderString f ++ renderFilesRest fs

/-- One commit object as rendered by `json.dump(..., indent=2)` inside
the commits array: members at indent 6, closing brace at indent 4, keys
in dict construction order, key separator a colon and one space. -/
def renderCommit (c : Commit) : List Char :=
  '\x7b' :: '\n' :: wsp 6 ++ renderString "hash" ++ ':' :: ' ' :: renderString c.hash
    ++ ',' :: '\n' :: wsp 6 ++ renderString "author" ++ ':' :: ' ' :: renderString c.author
    ++ ',' :: '\n' :: wsp 6 ++ renderString "email" ++ ':' :: ' ' :: renderString c.email
    ++ ',' :: '\n' :: wsp 6 ++ renderString "timestamp" ++ ':' :: ' ' :: renderString c.timestamp
    ++ ',' :: '\n' :: wsp 6 ++ renderString "linesAdded" ++ ':' :: ' ' :: renderInt c.linesAdded
    ++ ',' :: '\n' :: wsp 6 ++ renderString "linesRemoved" ++ ':' :: ' ' :: renderInt c.linesRemoved
    ++ ',' :: '\n' :: wsp 6 ++ renderString "filesModified" ++ ':' :: ' ' :: renderFiles c.filesModified
    ++ '\n' :: wsp 4 ++ ['\x7d']

/-- Commits after the first, each at indent 4, then the closing bracket
at indent 2. -/
def renderCommitsRest : List Commit → List Char
  | [] => '\n' :: wsp 2 ++ [']']
  | c :: cs => ',' :: '\n' :: wsp 4 ++ renderCommit c ++ renderCommitsRest cs

/-- The commits array. -/
def renderCommits : List Commit → List Char
  | [] => ['[', ']']
  | c :: cs => '[' :: '\n' :: wsp 4 ++ renderCommit c ++ renderCommitsRest cs

/-- The full report document as rendered by `json.dump(data, f,
indent=2)` for the dict shape `analyze_repository` builds. -/
def renderReport (r : Report) : List Char :=
  '\x7b' :: '\n' :: wsp 2 ++ renderString "repository" ++ ':' :: ' ' :: renderString r.repository
    ++ ',' :: '\n' :: wsp 2 ++ renderString "commits" ++ ':' :: ' ' :: renderCommits r.commits
    ++ '\n' :: ['\x7d']

/-- One rendered object member: newline, indent, quoted key, colon,
space, value, followed by the rest of the document. -/
def memChunk (n : Nat) (key : String) (vr tail : List Char) : List Char :=
  ('\n' :: wsp n) ++ (renderString key ++ (':' :: ' ' :: (vr ++ tail)))

/-- Embedding of `save_to_json` (gitslurp.py lines 142-146) as the text
written to the destination file: `json.dump(data, f, indent=2)` applied
to the report dict. -/
def save_to_json (data : Report) : String := ⟨renderReport data⟩

/-- JSON whitespace (space, tab, newline, carriage return). -/
def isJsonWs (c : Char) : Bool :=
  c.toNat = 32 || c.toNat = 9 || c.toNat = 10 || c.toNat = 13

/-- Drop leading JSON whitespace. -/
def skipWs (cs : List Char) : List Char := cs.dropWhile isJsonWs

/-- Value of one hexadecimal digit. -/
def hexVal (c : Char) : Option Nat :=
  if 48 ≤ c.toNat ∧ c.toNat ≤ 57 then some (c.toNat - 48)
  else if 97 ≤ c.toNat ∧ c.toNat ≤ 102 then some (c.toNat - 87)
  else if 65 ≤ c.toNat ∧ c.toNat ≤ 70 then some (c.toNat - 55)
  else none

/-- The character denoted by a single-letter JSON escape. -/
def escCharOf (e : Char) : Option Char :=
  if e = '"' then some '"'
  else if e = '\\' then some '\\'
  else if e = '/' then some '/'
  else if e = 'n' then some '\n'
  else if e = 't' then some '\t'
  else if e = 'r' then some '\r'
  else if e = 'b' then some (Char.ofNat 8)
  else if e = 'f' then some (Char.ofNat 12)
  else none

/-- Four hexadecimal digits and their value. -/
def parseHex4 : List Char → Option (Nat × List Char)
  | a :: b :: c :: d :: rest =>
    match hexVal a, hexVal b, hexVal c, hexVal d with
    | some h1, some h2, some h3, some h4 => some (((h1 * 16 + h2) * 16 + h3) * 16 + h4, rest)
    | _, _, _, _ => none
  | _ => none

/-- Decode one escape sequence (the part after the backslash): a
single-letter escape, or a `\u` quartet, a high surrogate requiring a
following `\u` low surrogate (a lone surrogate is rejected). -/
def parseEscSeq : List Char → Option (Char × List Char)
  | [] => none
  | e :: rest1 =>
    if e = 'u' then
      match parseHex4 rest1 with
      | some (n, rest2) =>
        if 55296 ≤ n ∧ n < 56320 then
          match rest2 with
          | s1 :: s2 :: rest2a =>
            if s1 = '\\' ∧ s2 = 'u' then
              match parseHex4 rest2a with
              | some (m, rest3) =>
                if 56320 ≤ m ∧ m < 57344 then
                  some (Char.ofNat (65536 + (n - 55296) * 1024 + (m - 56320)), rest3)
                else none
              | none => none
            else none
          | _ => none
        else if 56320 ≤ n ∧ n < 57344 then none
        else some (Char.ofNat n, rest2)
      | none => none
    else
      match escCharOf e with
      | some ec => some (ec, rest1)
      | none => none

/-- Fuel-driven core of the string scanner: each step consumes at least
one input character and one unit of fuel, so any fuel above the input
length never runs out; structural recursion on the fuel keeps the
definition kernel-reducible. -/
def parseStrCharsF : Nat → List Char → Option (List Char × List Char)
  | 0, _ => none
  | fuel + 1, cs =>
    match cs with
    | [] => none
    | c :: rest =>
      if c = '"' then some ([], rest)
      else if c = '\\' then
        match parseEscSeq rest with
        | some (ec, rest1) =>
          match parseStrCharsF fuel rest1 with
          | some (out, r) => some (ec :: out, r)
          | none => none
        | none => none
      else if c.toNat < 32 then none
      else
        match parseStrCharsF fuel rest with
        | some (out, r) => some (c :: out, r)
        | none => none

/-- Modelled from the spec: the string scanner of Python's `json.load`
(stdlib code absent from src/), reading characters up to the closing
quote: backslash escapes are decoded, `\u` escapes combine a
high-surrogate and low-surrogate pair into one character (a lone
surrogate, which Lean characters cannot represent, is rejected), and
raw control characters are rejected as in strict mode.  Returns the
decoded characters and the remaining input. -/
def parseStrChars (cs : List Char) : Option (List Char × List Char) :=
  parseStrCharsF (cs.length + 1) cs

/-- ASCII digit test. -/
def isDigitB (c : Char) : Bool := 48 ≤ c.toNat && c.toNat ≤ 57

/-- Value of a digit run, most significant first. -/
def digitsToNat (ds : List Char) : Nat :=
  ds.foldl (fun a c => a * 10 + (c.toNat - 48)) 0

/-- The input does not begin with an ASCII digit (delimits a decimal
literal for the number scanner). -/
def notDigitStartB : List Char → Bool
  | [] => true
  | c :: _ => !(isDigitB c)

/-- Modelled from the spec: the integer-literal scanner of Python's
`json.load`, restricted to the integers the report serializer emits
(optional minus sign and a digit run; floats and exponents never occur
in the rendered document). -/
def parseNumber (cs : List Char) : Option (Int × List Char) :=
  match cs with
  | [] => none
  | c :: rest =>
    if c = '-' then
      if rest.takeWhile isDigitB = [] then none
      else some (-(digitsToNat (rest.takeWhile isDigitB) : Int), rest.dropWhile isDigitB)
    else
      if (c :: rest).takeWhile isDigitB = [] then none
      else some ((digitsToNat ((c :: rest).takeWhile isDigitB) : Int),
        (c :: rest).dropWhile isDigitB)

/-- Array-items loop of the JSON value parser: parse one value with the
supplied value parser, then a comma (continue) or closing bracket
(finish).  Fuel-driven so the recursion stays structural. -/
def parseItems (pv : List Char → Option (Json × List Char)) :
    Nat → List Char → List Json → Option (Json × List Char)
  | 0, _, _ => none
  | fuel + 1, cs, acc =>
    match pv cs with
    | some (j, r) =>
      match skipWs r with
      | ',' :: r2 => parseItems pv fuel r2 (acc ++ [j])
      | ']' :: r2 => some (.arr (acc ++ [j]), r2)
      | _ => none
    | none => none

/-- Object-members loop of the JSON value parser: a string key, a
colon, a value, then a comma (continue) or closing brace (finish). -/
def parseMembers (pv : List Char → Option (Json × List Char)) :
    Nat → List Char → List (String × Json) → Option (Json × List Char)
  | 0, _, _ => none
  | fuel + 1, cs, acc =>
    match skipWs cs with
    | c :: rest =>
      if c = '"' then
        match parseStrChars rest with
        | some (key, r) =>
          match skipWs r with
          | ':' :: r2 =>
            match pv r2 with
            | some (v, r3) =>
              match skipWs r3 with
              | ',' :: r4 => parseMembers pv fuel r4 (acc ++ [(⟨key⟩, v)])
              | '\x7d' :: r4 => some (.obj (acc ++ [(⟨key⟩, v)]), r4)
              | _ => none
            | none => none
          | _ => none
        | none => none
      else none
    | [] => none

/-- Modelled from the spec: the value parser of Python's `json.load`
(stdlib code absent from src/), restricted to the grammar the report
serializer emits: strings, integers, arrays and objects, with
whitespace skipped freely.  Returns the value and the remaining
input. -/
def parseVal : Nat → List Char → Option (Json × List Char)
  | 0, _ => none
  | fuel + 1, cs =>
    match skipWs cs with
    | [] => none
    | c :: rest =>
      if c = '"' then
        match parseStrChars rest with
        | some (out, r) => some (.str ⟨out⟩, r)
        | none => none
      else if c = '\x7b' then
        match skipWs rest with
        | '\x7d' :: r2 => some (.obj [], r2)
        | _ => parseMembers (parseVal fuel) fuel rest []
      else if c = '[' then
        match skipWs rest with
        | ']' :: r2 => some (.arr [], r2)
        | _ => parseItems (parseVal fuel) fuel rest []
      else
        match parseNumber (c :: rest) with
        | some (n, r) => some (.int n, r)
        | none => none

/-- Modelled from the spec: `json.load` on a whole document (parse one
value, allow trailing whitespace, require the input to be consumed).
The fuel bound, one more than the document length, never runs out on
inputs the serializer produces. -/
def pyJsonLoad (s : String) : Option Json :=
  match parseVal (s.data.length + 1) s.data with
  | some (j, rest) => if skipWs rest = [] then some j else none
  | none => none

section SanityChecks

example : pySplit "a|b|c|d" '|' = ["a", "b", "c", "d"] := by decide
example : pySplit "" '|' = [""] := by decide
example : pySplit "a||b" '|' = ["a", "", "b"] := by decide
example : pyIntOfString "1700000000" = some 1700000000 := by decide
example : pyIntOfString " -5 " = some (-5) := by decide
example : pyIntOfString "x" = none := by decide
example : pyIntOfString "1_0" = some 10 := by decide
example : pyIntOfString "1__0" = none := by decide
example : pyIntOfString "" = none := by decide
example : format_timestamp "1700000000" = some "2023-11-14T22:13:20Z" := by decide
example : format_timestamp "0" = some "1970-01-01T00:00:00Z" := by decide
example : format_timestamp "-1" = some "1969-12-31T23:59:59Z" := by decide
example : os_path_dirname "/a/b" = "/a" := by decide
example : os_path_dirname "a" = "" := by decide
example : os_path_basename "/a/b" = "b" := by decide
example :
    detailsOfOutput (some "-\t-\timg.png") = ⟨0, 0, ["img.png"]⟩ := by decide
example :
    detailsOfOutput (some "10\t2\tfile.go") = ⟨10, 2, ["file.go"]⟩ := by decide

end SanityChecks

/-! Lemmas about the numstat aggregation loop. -/

lemma processStatLine_of_rowOfLine_none (acc : Details) (line : String)
    (h : rowOfLine line = none) : processStatLine acc line = acc := by
  unfold rowOfLine at h
  by_cases hline : line = ""
  · simp [processStatLine, hline]
  · rw [if_neg hline] at h
    rcases hs : pySplit line '\t' with _ | ⟨p0, _ | ⟨p1, _ | ⟨p2, ps⟩⟩⟩
    · simp [processStatLine, hline, hs]
    · simp [processStatLine, hline, hs]
    · simp [processStatLine, hline, hs]
    · rw [hs] at h; simp at h

lemma processStatLine_of_rowOfLine_some (acc : Details) (line : String)
    (p0 p1 p2 : String) (h : rowOfLine line = some (p0, p1, p2)) :
    processStatLine acc line =
      match fieldVal p0, fieldVal p1 with
      | some added, some removed =>
        ⟨acc.linesAdded + added, acc.linesRemoved + removed, acc.filesModified ++ [p2]⟩
      | _, _ => acc := by
  unfold rowOfLine at h
  by_cases hline : line = ""
  · rw [if_pos hline] at h; cases h
  · rw [if_neg hline] at h
    rcases hs : pySplit line '\t' with _ | ⟨q0, _ | ⟨q1, _ | ⟨q2, ps⟩⟩⟩ <;>
      rw [hs] at h <;> simp at h
    obtain ⟨h0, h1, h2⟩ := h
    subst h0; subst h1; subst h2
    simp [processStatLine, hline, hs]

lemma foldl_processStatLine (lines : List String) :
    ∀ acc : Details, rowsParse (statRows lines) →
      lines.foldl processStatLine acc =
        ⟨acc.linesAdded + rowsAdded (statRows lines),
         acc.linesRemoved + rowsRemoved (statRows lines),
         acc.filesModified ++ rowsFiles (statRows lines)⟩ := by
  induction lines with
  | nil => intro acc _; simp [statRows, rowsAdded, rowsRemoved, rowsFiles]
  | cons line rest ih =>
    intro acc hp
    cases hrow : rowOfLine line with
    | none =>
      have h1 : statRows (line :: rest) = statRows rest := by
        simp [statRows, List.filterMap_cons, hrow]
      rw [h1] at hp
      rw [List.foldl_cons, processStatLine_of_rowOfLine_none acc line hrow, ih acc hp, h1]
    | some r =>
      obtain ⟨p0, p1, p2⟩ := r
      have h1 : statRows (line :: rest) = (p0, p1, p2) :: statRows rest := by
        simp [statRows, List.filterMap_cons, hrow]
      rw [h1] at hp
      obtain ⟨ha, hb⟩ := hp (p0, p1, p2) (by simp)
      obtain ⟨a, ha'⟩ := Option.isSome_iff_exists.mp ha
      obtain ⟨b, hb'⟩ := Option.isSome_iff_exists.mp hb
      have hstep : processStatLine acc line =
          ⟨acc.linesAdded + a, acc.linesRemoved + b, acc.filesModified ++ [p2]⟩ := by
        rw [processStatLine_of_rowOfLine_some acc line p0 p1 p2 hrow, ha', hb']
      have hp' : rowsParse (statRows rest) := fun r hr => hp r (by simp [hr])
      rw [List.foldl_cons, hstep, ih _ hp', h1]
      simp [rowsAdded, rowsRemoved, rowsFiles, ha', hb']
      refine ⟨by omega, by omega⟩

lemma detailsOfOutput_eq_rows (output : String) (hp : rowsParse (numstatRows output)) :
    detailsOfOutput (some output) =
      ⟨rowsAdded (numstatRows output), rowsRemoved (numstatRows output),
        rowsFiles (numstatRows output)⟩ := by
  by_cases h : output = ""
  · subst h
    show detailsOfOutput (some "") =
      ⟨rowsAdded (numstatRows ""), rowsRemoved (numstatRows ""), rowsFiles (numstatRows "")⟩
    decide
  · have hd : detailsOfOutput (some output) =
        (splitLines output).foldl processStatLine ⟨0, 0, []⟩ := by
      simp [detailsOfOutput, h]
    rw [hd, foldl_processStatLine (splitLines output) ⟨0, 0, []⟩ hp]
    simp [numstatRows]

lemma foldl_processStatLine_nonneg (lines : List String) :
    ∀ acc : Details, (statRows lines).all rowOkNonneg = true →
      0 ≤ acc.linesAdded → 0 ≤ acc.linesRemoved →
      0 ≤ (lines.foldl processStatLine acc).linesAdded ∧
        0 ≤ (lines.foldl processStatLine acc).linesRemoved := by
  induction lines with
  | nil => intro acc _ h1 h2; exact ⟨h1, h2⟩
  | cons line rest ih =>
    intro acc hall h1 h2
    cases hrow : rowOfLine line with
    | none =>
      have hall' : (statRows rest).all rowOkNonneg = true := by
        simpa [statRows, List.filterMap_cons, hrow] using hall
      rw [List.foldl_cons, processStatLine_of_rowOfLine_none acc line hrow]
      exact ih acc hall' h1 h2
    | some r =>
      obtain ⟨p0, p1, p2⟩ := r
      have h1' : statRows (line :: rest) = (p0, p1, p2) :: statRows rest := by
        simp [statRows, List.filterMap_cons, hrow]
      rw [h1', List.all_cons, Bool.and_eq_true] at hall
      obtain ⟨hrow_ok, hall'⟩ := hall
      rw [List.foldl_cons, processStatLine_of_rowOfLine_some acc line p0 p1 p2 hrow]
      cases ha : fieldVal p0 with
      | none => exact ih acc hall' h1 h2
      | some a =>
        cases hb : fieldVal p1 with
        | none => exact ih acc hall' h1 h2
        | some b =>
          unfold rowOkNonneg at hrow_ok
          rw [ha, hb] at hrow_ok
          simp at hrow_ok
          exact ih _ hall' (by simp; omega) (by simp; omega)

lemma detailsOfOutput_nonneg (o : Option String) (h : statsOkB o = true) :
    0 ≤ (detailsOfOutput o).linesAdded ∧ 0 ≤ (detailsOfOutput o).linesRemoved := by
  cases o with
  | none => exact ⟨le_refl 0, le_refl 0⟩
  | some output =>
    by_cases hout : output = ""
    · subst hout; exact ⟨le_refl 0, le_refl 0⟩
    · have hd : detailsOfOutput (some output) =
          (splitLines output).foldl processStatLine ⟨0, 0, []⟩ := by
        simp [detailsOfOutput, hout]
      rw [hd]
      exact foldl_processStatLine_nonneg (splitLines output) ⟨0, 0, []⟩ h
        (le_refl 0) (le_refl 0)

/-! Lemmas about repository-name resolution. -/

lemma string_eq_of_data {a b : String} (h : a.data = b.data) : a = b := by
  cases a; cases b; exact congrArg String.mk h

lemma string_ne_empty_of_data {a : String} (h : a.data ≠ []) : a ≠ "" := by
  intro he; subst he; exact h rfl

lemma pyDropLast_append_git (s : String) (h : pyEndsWith s ".git" = true) :
    pyDropLast s 4 ++ ".git" = s := by
  apply string_eq_of_data
  have h' : s.data.reverse.take 4 = ['t', 'i', 'g', '.'] := of_decide_eq_true h
  show (s.data.reverse.drop 4).reverse ++ ('.' :: 'g' :: 'i' :: 't' :: []) = s.data
  have h2 : s.data.reverse = ['t', 'i', 'g', '.'] ++ s.data.reverse.drop 4 := by
    conv_lhs => rw [← List.take_append_drop 4 s.data.reverse]
    rw [h']
  have h3 : s.data = (s.data.reverse).reverse := (List.reverse_reverse _).symm
  rw [h3, h2]
  simp

lemma pyDropLast_ne_empty (s : String) (h : 4 < s.length) : pyDropLast s 4 ≠ "" := by
  apply string_ne_empty_of_data
  show (s.data.reverse.drop 4).reverse ≠ []
  have hlen : s.data.length = s.length := rfl
  intro hc
  have := congrArg List.length hc
  simp at this
  omega

lemma get_repository_name_remote (env : GitEnv) (url : String)
    (hr : run_git_command env.configResult = some url) (hne : url ≠ "") :
    get_repository_name env =
      (if pyEndsWith ((pySplit url '/').getLastD "") ".git"
       then pyDropLast ((pySplit url '/').getLastD "") 4
       else (pySplit url '/').getLastD "") := by
  simp [get_repository_name, hr, hne]

lemma get_repository_name_fallback (env : GitEnv)
    (h : run_git_command env.configResult = none ∨ run_git_command env.configResult = some "") :
    get_repository_name env = os_path_basename (os_path_dirname env.repo_path) := by
  rcases h with h | h
  · simp [get_repository_name, h]
  · simp [get_repository_name, h]

/-! Lemmas about the commit-history loop. -/

lemma recordOfLine_empty (env : GitEnv) : recordOfLine env "" = none := rfl

lemma pySplit_ne_nil (s : String) (sep : Char) : pySplit s sep ≠ [] := by
  have h : ∀ cs : List Char, splitChar sep cs ≠ [] := by
    intro cs
    induction cs with
    | nil => simp [splitChar]
    | cons c rest ih =>
      simp only [splitChar]
      by_cases hc : c = sep
      · simp [hc]
      · rw [if_neg hc]
        rcases hr : splitChar sep rest with _ | ⟨g, gs⟩
        · simp
        · simp
  intro hc
  exact h s.data (by simpa [pySplit] using hc)

lemma lineOk_of_short (line : String) (h : ¬4 ≤ (pySplit line '|').length) :
    lineOk line = true := by
  unfold lineOk
  rcases hs : pySplit line '|' with _ | ⟨p0, _ | ⟨p1, _ | ⟨p2, _ | ⟨p3, ps⟩⟩⟩⟩
  · rfl
  · rfl
  · rfl
  · rfl
  · rw [hs] at h; simp at h

lemma processLines_eq (env : GitEnv) (total : Nat) :
    ∀ (lines : List String) (i : Nat) (commits : List Commit) (msgs : List Msg),
      lines.all lineOk = true →
      processLines env total i lines commits msgs =
        .ok (commits ++ lines.filterMap (recordOfLine env),
          msgs ++ progressMsgs env total i lines) := by
  intro lines
  induction lines with
  | nil => intro i commits msgs _; simp [processLines, progressMsgs]
  | cons line rest ih =>
    intro i commits msgs hall
    rw [List.all_cons, Bool.and_eq_true] at hall
    obtain ⟨hlok, hrest⟩ := hall
    by_cases hline : line = ""
    · subst hline
      have hstep : processLines env total i ("" :: rest) commits msgs =
          processLines env total (i + 1) rest commits msgs := by
        simp [processLines]
      rw [hstep, ih (i + 1) commits msgs hrest]
      simp [List.filterMap_cons, recordOfLine_empty, progressMsgs]
    · rcases hs : pySplit line '|' with _ | ⟨p0, _ | ⟨p1, _ | ⟨p2, _ | ⟨p3, ps⟩⟩⟩⟩
      · exact absurd hs (pySplit_ne_nil line '|')
      · have hrec : recordOfLine env line = none := by simp [recordOfLine, hline, hs]
        have hstep : processLines env total i (line :: rest) commits msgs =
            processLines env total (i + 1) rest commits msgs := by
          simp only [processLines]; rw [if_neg hline, hs]
        rw [hstep, ih (i + 1) commits msgs hrest]
        simp [List.filterMap_cons, hrec, progressMsgs]
      · have hrec : recordOfLine env line = none := by simp [recordOfLine, hline, hs]
        have hstep : processLines env total i (line :: rest) commits msgs =
            processLines env total (i + 1) rest commits msgs := by
          simp only [processLines]; rw [if_neg hline, hs]
        rw [hstep, ih (i + 1) commits msgs hrest]
        simp [List.filterMap_cons, hrec, progressMsgs]
      · have hrec : recordOfLine env line = none := by simp [recordOfLine, hline, hs]
        have hstep : processLines env total i (line :: rest) commits msgs =
            processLines env total (i + 1) rest commits msgs := by
          simp only [processLines]; rw [if_neg hline, hs]
        rw [hstep, ih (i + 1) commits msgs hrest]
        simp [List.filterMap_cons, hrec, progressMsgs]
      · have hts' : (format_timestamp p3).isSome = true := by
          unfold lineOk at hlok; rw [hs] at hlok; exact hlok
        obtain ⟨ts, hts⟩ := Option.isSome_iff_exists.mp hts'
        set c : Commit :=
          ⟨p0, p1, p2, ts, (get_commit_details env p0).linesAdded,
            (get_commit_details env p0).linesRemoved,
            (get_commit_details env p0).filesModified⟩ with hc
        have hrec : recordOfLine env line = some c := by
          simp [recordOfLine, hline, hs, hts]
        have hstep : processLines env total i (line :: rest) commits msgs =
            processLines env total (i + 1) rest (commits ++ [c])
              (if (i + 1) % 10 = 0 then msgs ++ [Msg.processed (i + 1) total] else msgs) := by
          simp only [processLines]; rw [if_neg hline, hs]; simp [hts]
        rw [hstep, ih (i + 1) _ _ hrest]
        have hprog : progressMsgs env total i (line :: rest) =
            (if (i + 1) % 10 = 0 then [Msg.processed (i + 1) total] else []) ++
              progressMsgs env total (i + 1) rest := by
          simp [progressMsgs, hrec]
        rw [hprog]
        simp only [List.filterMap_cons, hrec]
        by_cases hmod : (i + 1) % 10 = 0
        · simp [hmod]
        · simp [hmod]

lemma get_commits_eq (env : GitEnv) (h : goodHistory env) :
    get_commits env =
      .ok ((historyLines env).filterMap (recordOfLine env), msgSpec env) := by
  unfold goodHistory at h
  cases hrun : run_git_command env.logResult with
  | none =>
    have h1 : historyLines env = [] := by simp [historyLines, hrun]
    have h2 : get_commits env = .ok ([], []) := by simp [get_commits, hrun]
    rw [h2, h1]
    simp [msgSpec, h1]
  | some output =>
    by_cases hout : output = ""
    · subst hout
      have h1 : historyLines env = [] := by simp [historyLines, hrun]
      have h2 : get_commits env = .ok ([], []) := by simp [get_commits, hrun]
      rw [h2, h1]
      simp [msgSpec, h1]
    · have h1 : historyLines env = pySplit output '\n' := by
        simp [historyLines, hrun, hout]
      rw [h1] at h
      have h2 : get_commits env = processLines env (pySplit output '\n').length 0
          (pySplit output '\n') [] [Msg.processing (pySplit output '\n').length] := by
        simp [get_commits, hrun, hout]
      have hne : pySplit output '\n' ≠ [] := pySplit_ne_nil output '\n'
      rw [h2, processLines_eq env _ _ 0 _ _ h, h1]
      simp [msgSpec, h1, hne]

lemma runOk_get_commits (env : GitEnv) (h : goodHistory env) :
    runOk (get_commits env) = true := by
  rw [get_commits_eq env h]; rfl

lemma commitLineB_empty : commitLineB "" = false := by decide

lemma recordOfLine_isSome_eq (env : GitEnv) (line : String) (h : lineOk line = true) :
    (recordOfLine env line).isSome = commitLineB line := by
  by_cases hline : line = ""
  · subst hline; rw [recordOfLine_empty, commitLineB_empty]; rfl
  · rcases hs : pySplit line '|' with _ | ⟨p0, _ | ⟨p1, _ | ⟨p2, _ | ⟨p3, ps⟩⟩⟩⟩
    · exact absurd hs (pySplit_ne_nil line '|')
    · simp [recordOfLine, hline, hs, commitLineB]
    · simp [recordOfLine, hline, hs, commitLineB]
    · simp [recordOfLine, hline, hs, commitLineB]
    · have hts' : (format_timestamp p3).isSome = true := by
        unfold lineOk at h; rw [hs] at h; exact h
      obtain ⟨ts, hts⟩ := Option.isSome_iff_exists.mp hts'
      simp [recordOfLine, hline, hs, hts, commitLineB]

lemma filterMap_recordOfLine_length (env : GitEnv) :
    ∀ lines : List String, lines.all lineOk = true →
      (lines.filterMap (recordOfLine env)).length = (lines.filter commitLineB).length := by
  intro lines
  induction lines with
  | nil => intro _; rfl
  | cons line rest ih =>
    intro hall
    rw [List.all_cons, Bool.and_eq_true] at hall
    obtain ⟨hlok, hrest⟩ := hall
    have hsome := recordOfLine_isSome_eq env line hlok
    cases hrec : recordOfLine env line with
    | none =>
      rw [hrec] at hsome
      simp [List.filterMap_cons, List.filter_cons, hrec, ← hsome, ih hrest]
    | some c =>
      rw [hrec] at hsome
      simp [List.filterMap_cons, List.filter_cons, hrec, ← hsome, ih hrest]

lemma processLines_all_lineOk (env : GitEnv) (total : Nat) :
    ∀ (lines : List String) (i : Nat) (commits : List Commit) (msgs : List Msg)
      (p : List Commit × List Msg),
      processLines env total i lines commits msgs = .ok p → lines.all lineOk = true := by
  intro lines
  induction lines with
  | nil => intro i commits msgs p _; rfl
  | cons line rest ih =>
    intro i commits msgs p hok
    rw [List.all_cons, Bool.and_eq_true]
    by_cases hline : line = ""
    · subst hline
      have hstep : processLines env total i ("" :: rest) commits msgs =
          processLines env total (i + 1) rest commits msgs := by
        simp [processLines]
      rw [hstep] at hok
      exact ⟨by decide, ih (i + 1) commits msgs p hok⟩
    · rcases hs : pySplit line '|' with _ | ⟨p0, _ | ⟨p1, _ | ⟨p2, _ | ⟨p3, ps⟩⟩⟩⟩
      · exact absurd hs (pySplit_ne_nil line '|')
      · have hstep : processLines env total i (line :: rest) commits msgs =
            processLines env total (i + 1) rest commits msgs := by
          simp only [processLines]; rw [if_neg hline, hs]
        rw [hstep] at hok
        exact ⟨lineOk_of_short line (by rw [hs]; simp), ih (i + 1) commits msgs p hok⟩
      · have hstep : processLines env total i (line :: rest) commits msgs =
            processLines env total (i + 1) rest commits msgs := by
          simp only [processLines]; rw [if_neg hline, hs]
        rw [hstep] at hok
        exact ⟨lineOk_of_short line (by rw [hs]; simp), ih (i + 1) commits msgs p hok⟩
      · have hstep : processLines env total i (line :: rest) commits msgs =
            processLines env total (i + 1) rest commits msgs := by
          simp only [processLines]; rw [if_neg hline, hs]
        rw [hstep] at hok
        exact ⟨lineOk_of_short line (by rw [hs]; simp), ih (i + 1) commits msgs p hok⟩
      · cases hts : format_timestamp p3 with
        | none =>
          have hstep : processLines env total i (line :: rest) commits msgs =
              .error .valueError := by
            simp only [processLines]; rw [if_neg hline, hs]; simp [hts]
          rw [hstep] at hok
          cases hok
        | some ts =>
          have hstep : processLines env total i (line :: rest) commits msgs =
              processLines env total (i + 1) rest
                (commits ++ [⟨p0, p1, p2, ts, (get_commit_details env p0).linesAdded,
                  (get_commit_details env p0).linesRemoved,
                  (get_commit_details env p0).filesModified⟩])
                (if (i + 1) % 10 = 0 then msgs ++ [Msg.processed (i + 1) total] else msgs) := by
            simp only [processLines]; rw [if_neg hline, hs]; simp [hts]
          rw [hstep] at hok
          refine ⟨?_, ih (i + 1) _ _ p hok⟩
          unfold lineOk; rw [hs]; simp [hts]

lemma get_commits_ok_inv (env : GitEnv) (cs : List Commit) (msgs : List Msg)
    (h : get_commits env = .ok (cs, msgs)) :
    goodHistory env ∧ cs = (historyLines env).filterMap (recordOfLine env) ∧
      msgs = msgSpec env := by
  have hgood : goodHistory env := by
    cases hrun : run_git_command env.logResult with
    | none =>
      have h1 : historyLines env = [] := by simp [historyLines, hrun]
      unfold goodHistory; rw [h1]; rfl
    | some output =>
      by_cases hout : output = ""
      · subst hout
        have h1 : historyLines env = [] := by simp [historyLines, hrun]
        unfold goodHistory; rw [h1]; rfl
      · have h1 : historyLines env = pySplit output '\n' := by
          simp [historyLines, hrun, hout]
        have h2 : processLines env (pySplit output '\n').length 0 (pySplit output '\n') []
            [Msg.processing (pySplit output '\n').length] = .ok (cs, msgs) := by
          rw [← h]; simp [get_commits, hrun, hout]
        unfold goodHistory; rw [h1]
        exact processLines_all_lineOk env _ _ 0 [] _ (cs, msgs) h2
  have h3 := get_commits_eq env hgood
  rw [h] at h3
  injection h3 with h3
  exact ⟨hgood, congrArg Prod.fst h3, congrArg Prod.snd h3⟩

lemma processLines_runOk_indep :
    ∀ (lines : List String) (env env' : GitEnv) (total total' i : Nat)
      (commits commits' : List Commit) (msgs msgs' : List Msg),
      runOk (processLines env total i lines commits msgs) =
        runOk (processLines env' total' i lines commits' msgs') := by
  intro lines
  induction lines with
  | nil => intro env env' total total' i commits commits' msgs msgs'; rfl
  | cons line rest ih =>
    intro env env' total total' i commits commits' msgs msgs'
    by_cases hline : line = ""
    · subst hline
      have e1 : processLines env total i ("" :: rest) commits msgs =
          processLines env total (i + 1) rest commits msgs := by simp [processLines]
      have e2 : processLines env' total' i ("" :: rest) commits' msgs' =
          processLines env' total' (i + 1) rest commits' msgs' := by simp [processLines]
      rw [e1, e2]
      exact ih env env' total total' (i + 1) commits commits' msgs msgs'
    · rcases hs : pySplit line '|' with _ | ⟨p0, _ | ⟨p1, _ | ⟨p2, _ | ⟨p3, ps⟩⟩⟩⟩
      · exact absurd hs (pySplit_ne_nil line '|')
      · have e1 : processLines env total i (line :: rest) commits msgs =
            processLines env total (i + 1) rest commits msgs := by
          simp only [processLines]; rw [if_neg hline, hs]
        have e2 : processLines env' total' i (line :: rest) commits' msgs' =
            processLines env' total' (i + 1) rest commits' msgs' := by
          simp only [processLines]; rw [if_neg hline, hs]
        rw [e1, e2]
        exact ih env env' total total' (i + 1) commits commits' msgs msgs'
      · have e1 : processLines env total i (line :: rest) commits msgs =
            processLines env total (i + 1) rest commits msgs := by
          simp only [processLines]; rw [if_neg hline, hs]
        have e2 : processLines env' total' i (line :: rest) commits' msgs' =
            processLines env' total' (i + 1) rest commits' msgs' := by
          simp only [processLines]; rw [if_neg hline, hs]
        rw [e1, e2]
        exact ih env env' total total' (i + 1) commits commits' msgs msgs'
      · have e1 : processLines env total i (line :: rest) commits msgs =
            processLines env total (i + 1) rest commits msgs := by
          simp only [processLines]; rw [if_neg hline, hs]
        have e2 : processLines env' total' i (line :: rest) commits' msgs' =
            processLines env' total' (i + 1) rest commits' msgs' := by
          simp only [processLines]; rw [if_neg hline, hs]
        rw [e1, e2]
        exact ih env env' total total' (i + 1) commits commits' msgs msgs'
      · cases hts : format_timestamp p3 with
        | none =>
          have e1 : processLines env total i (line :: rest) commits msgs =
              .error .valueError := by
            simp only [processLines]; rw [if_neg hline, hs]; simp [hts]
          have e2 : processLines env' total' i (line :: rest) commits' msgs' =
              .error .valueError := by
            simp only [processLines]; rw [if_neg hline, hs]; simp [hts]
          rw [e1, e2]
        | some ts =>
          have e1 : processLines env total i (line :: rest) commits msgs =
              processLines env total (i + 1) rest
                (commits ++ [⟨p0, p1, p2, ts, (get_commit_details env p0).linesAdded,
                  (get_commit_details env p0).linesRemoved,
                  (get_commit_details env p0).filesModified⟩])
                (if (i + 1) % 10 = 0 then msgs ++ [Msg.processed (i + 1) total] else msgs) := by
            simp only [processLines]; rw [if_neg hline, hs]; simp [hts]
          have e2 : processLines env' total' i (line :: rest) commits' msgs' =
              processLines env' total' (i + 1) rest
                (commits' ++ [⟨p0, p1, p2, ts, (get_commit_details env' p0).linesAdded,
                  (get_commit_details env' p0).linesRemoved,
                  (get_commit_details env' p0).filesModified⟩])
                (if (i + 1) % 10 = 0 then msgs' ++ [Msg.processed (i + 1) total'] else msgs') := by
            simp only [processLines]; rw [if_neg hline, hs]; simp [hts]
          rw [e1, e2]
          exact ih env env' total total' (i + 1) _ _ _ _

lemma get_commits_runOk_indep (env : GitEnv) (f : String → CmdResult) :
    runOk (get_commits { env with showResult := f }) = runOk (get_commits env) := by
  have hlog : ({ env with showResult := f } : GitEnv).logResult = env.logResult := rfl
  unfold get_commits
  rw [hlog]
  cases hrun : run_git_command env.logResult with
  | none => rfl
  | some output =>
    by_cases hout : output = ""
    · subst hout; rfl
    · simp only [if_neg hout]
      exact processLines_runOk_indep (pySplit output '\n') _ env _ _ 0 [] [] _ _

lemma processLines_nonneg :
    ∀ (lines : List String) (env : GitEnv) (total i : Nat) (commits : List Commit)
      (msgs : List Msg) (cs : List Commit) (msgs2 : List Msg),
      processLines env total i lines commits msgs = .ok (cs, msgs2) →
      (∀ hsh : String, statsOkB (run_git_command (env.showResult hsh)) = true) →
      (∀ c ∈ commits, 0 ≤ c.linesAdded ∧ 0 ≤ c.linesRemoved) →
      ∀ c ∈ cs, 0 ≤ c.linesAdded ∧ 0 ≤ c.linesRemoved := by
  intro lines
  induction lines with
  | nil =>
    intro env total i commits msgs cs msgs2 hok hstats hacc
    have : commits = cs := by
      have h : Except.ok (ε := PyErr) (commits, msgs) = .ok (cs, msgs2) := hok
      injection h with h
      exact congrArg Prod.fst h
    rw [← this]
    exact hacc
  | cons line rest ih =>
    intro env total i commits msgs cs msgs2 hok hstats hacc
    by_cases hline : line = ""
    · have e1 : processLines env total i (line :: rest) commits msgs =
          processLines env total (i + 1) rest commits msgs := by
        subst hline; simp [processLines]
      rw [e1] at hok
      exact ih env total (i + 1) commits msgs cs msgs2 hok hstats hacc
    · rcases hs : pySplit line '|' with _ | ⟨p0, _ | ⟨p1, _ | ⟨p2, _ | ⟨p3, ps⟩⟩⟩⟩
      · exact absurd hs (pySplit_ne_nil line '|')
      · have e1 : processLines env total i (line :: rest) commits msgs =
            processLines env total (i + 1) rest commits msgs := by
          simp only [processLines]; rw [if_neg hline, hs]
        rw [e1] at hok
        exact ih env total (i + 1) commits msgs cs msgs2 hok hstats hacc
      · have e1 : processLines env total i (line :: rest) commits msgs =
            processLines env total (i + 1) rest commits msgs := by
          simp only [processLines]; rw [if_neg hline, hs]
        rw [e1] at hok
        exact ih env total (i + 1) commits msgs cs msgs2 hok hstats hacc
      · have e1 : processLines env total i (line :: rest) commits msgs =
            processLines env total (i + 1) rest commits msgs := by
          simp only [processLines]; rw [if_neg hline, hs]
        rw [e1] at hok
        exact ih env total (i + 1) commits msgs cs msgs2 hok hstats hacc
      · cases hts : format_timestamp p3 with
        | none =>
          have e1 : processLines env total i (line :: rest) commits msgs =
              .error .valueError := by
            simp only [processLines]; rw [if_neg hline, hs]; simp [hts]
          rw [e1] at hok
          cases hok
        | some ts =>
          have e1 : processLines env total i (line :: rest) commits msgs =
              processLines env total (i + 1) rest
                (commits ++ [⟨p0, p1, p2, ts, (get_commit_details env p0).linesAdded,
                  (get_commit_details env p0).linesRemoved,
                  (get_commit_details env p0).filesModified⟩])
                (if (i + 1) % 10 = 0 then msgs ++ [Msg.processed (i + 1) total] else msgs) := by
            simp only [processLines]; rw [if_neg hline, hs]; simp [hts]
          rw [e1] at hok
          refine ih env total (i + 1) _ _ cs msgs2 hok hstats ?_
          intro c hc
          rcases List.mem_append.mp hc with hc | hc
          · exact hacc c hc
          · have hdet := detailsOfOutput_nonneg
              (run_git_command (env.showResult p0)) (hstats p0)
            rcases List.mem_singleton.mp hc with rfl
            exact hdet

/-! Claim theorems. -/

/-- C1 counterexample: the history line `a|b|c|x` splits into four
pipe-separated fields whose fourth field is not a decimal integer, and
`get_commits` on it does not complete with a list of records — the
`ValueError` raised by `int` inside `format_timestamp` escapes and
aborts the run, contrary to the claim that no malformed line raises an
uncaught error. -/
theorem history_line_bad_timestamp_aborts :
    get_commits envBadTimestamp = .error .valueError := by decide

/-- C1 (amended): `get_commits` completes and returns a list of commit
records whenever every history line with at least four pipe-separated
fields has a fourth field accepted by `format_timestamp`; lines with
fewer than four fields are skipped and contribute no record, so the
record count equals the count of at-least-four-field lines. -/
theorem get_commits_completes_on_parseable_history (env : GitEnv) (h : goodHistory env) :
    runOk (get_commits env) = true ∧
      (resultCommits env).length = ((historyLines env).filter commitLineB).length := by
  refine ⟨runOk_get_commits env h, ?_⟩
  unfold resultCommits
  rw [get_commits_eq env h]
  exact filterMap_recordOfLine_length env (historyLines env) h

/-- C1 witness: a concrete history with one well-formed line and two
short lines. -/
theorem get_commits_completes_on_parseable_history_witness :
    runOk (get_commits envMixedLines) = true ∧
      (resultCommits envMixedLines).length =
        ((historyLines envMixedLines).filter commitLineB).length :=
  get_commits_completes_on_parseable_history envMixedLines (by decide)

/-- C2: whenever the numstat query succeeds, `get_commit_details` sums
the first fields into `linesAdded` and the second fields into
`linesRemoved` over all tab-separated rows with at least three fields
(for outputs whose count fields are each a dash or a parseable
integer, a dash contributing zero while the file path is still
recorded); and the specification's binary-file example holds. -/
theorem get_commit_details_sums_fields :
    (∀ (env : GitEnv) (hsh output : String),
        run_git_command (env.showResult hsh) = some output →
        rowsParse (numstatRows output) →
        get_commit_details env hsh =
          ⟨rowsAdded (numstatRows output), rowsRemoved (numstatRows output),
            rowsFiles (numstatRows output)⟩) ∧
    detailsOfOutput (some "-\t-\timg.png") = ⟨0, 0, ["img.png"]⟩ := by
  constructor
  · intro env hsh output hrun hp
    unfold get_commit_details
    rw [hrun]
    exact detailsOfOutput_eq_rows output hp
  · decide

/-- C2 witness: a two-row numstat output with one binary row. -/
theorem get_commit_details_sums_fields_witness :
    get_commit_details envTwoRows "h" =
      ⟨rowsAdded (numstatRows "10\t2\tfile.go\n-\t-\timg.png"),
        rowsRemoved (numstatRows "10\t2\tfile.go\n-\t-\timg.png"),
        rowsFiles (numstatRows "10\t2\tfile.go\n-\t-\timg.png")⟩ :=
  get_commit_details_sums_fields.1 envTwoRows "h" "10\t2\tfile.go\n-\t-\timg.png"
    (by decide) (by decide)

/-- C3 counterexample: a remote URL whose final path segment is exactly
".git" makes `get_repository_name` return the empty string, contrary to
the claim that a non-empty string is returned in all cases. -/
theorem repository_name_empty_on_bare_git_remote :
    get_repository_name envDotGitRemote = "" := by decide

/-- C3 (amended): the specification's example holds; when the remote
query yields a nonempty URL whose final slash-separated segment ends in
".git", exactly that one suffix is stripped (appending ".git" restores
the segment), and the result is non-empty whenever the segment is
longer than four characters; a segment not ending in ".git" is returned
unchanged; when the remote is absent or empty the base name of the
parent directory of the repository path is returned.  The result can be
empty only when the stripped segment or the fallback base name is
itself empty. -/
theorem repository_name_strip_and_fallback :
    get_repository_name envGitRemote = "my-repo" ∧
    (∀ (env : GitEnv) (url : String),
        run_git_command env.configResult = some url → url ≠ "" →
        (pyEndsWith ((pySplit url '/').getLastD "") ".git" = true →
          get_repository_name env ++ ".git" = (pySplit url '/').getLastD "" ∧
            (4 < ((pySplit url '/').getLastD "").length → get_repository_name env ≠ "")) ∧
        (pyEndsWith ((pySplit url '/').getLastD "") ".git" = false →
          get_repository_name env = (pySplit url '/').getLastD "")) ∧
    (∀ env : GitEnv,
        run_git_command env.configResult = none ∨
          run_git_command env.configResult = some "" →
        get_repository_name env = os_path_basename (os_path_dirname env.repo_path)) := by
  refine ⟨by decide, ?_, get_repository_name_fallback⟩
  intro env url hr hne
  have hg := get_repository_name_remote env url hr hne
  constructor
  · intro hend
    rw [hg, if_pos hend]
    exact ⟨pyDropLast_append_git _ hend, fun hlen => pyDropLast_ne_empty _ hlen⟩
  · intro hend
    have hne2 : ¬ pyEndsWith ((pySplit url '/').getLastD "") ".git" = true := by
      rw [hend]; simp
    rw [hg, if_neg hne2]

/-- C3 witness: the stripping branch at the example URL, and the
fallback branch at a repository with no remote. -/
theorem repository_name_strip_and_fallback_witness :
    (get_repository_name envGitRemote ++ ".git" =
        (pySplit "https://example.com/org/my-repo.git" '/').getLastD "") ∧
    get_repository_name envGitRemote ≠ "" ∧
    get_repository_name envNoRemote =
      os_path_basename (os_path_dirname envNoRemote.repo_path) := by
  have h := (repository_name_strip_and_fallback.2.1 envGitRemote
    "https://example.com/org/my-repo.git" (by decide) (by decide)).1 (by decide)
  exact ⟨h.1, h.2 (by decide),
    repository_name_strip_and_fallback.2.2 envNoRemote (Or.inl (by decide))⟩

/-- C4 counterexample: a numstat row `-5 3 f.txt` (tab-separated) is
accepted by the loop because Python `int` parses the signed numeral
`-5`, so the pipeline emits a commit record whose `linesAdded` is
negative, contrary to the claim that the fields are non-negative over
arbitrary numstat output. -/
theorem commit_record_negative_counts :
    get_commits envNegativeCounts = .ok ([recNegative], [Msg.processing 1]) ∧
      recNegative.linesAdded < 0 := by
  constructor
  · decide
  · decide

/-- C4 (amended): every commit record of a completed `get_commits` run
has non-negative `linesAdded` and `linesRemoved` provided every count
field of every numstat row parses, if at all, to a non-negative
integer (as every field git itself emits does: a dash or an unsigned
numeral). -/
theorem commit_counts_nonneg_of_nonneg_fields (env : GitEnv) (cs : List Commit)
    (msgs : List Msg) (hok : get_commits env = .ok (cs, msgs))
    (hstats : ∀ hsh : String, statsOkB (run_git_command (env.showResult hsh)) = true) :
    ∀ c ∈ cs, 0 ≤ c.linesAdded ∧ 0 ≤ c.linesRemoved := by
  cases hrun : run_git_command env.logResult with
  | none =>
    have h2 : get_commits env = .ok ([], []) := by simp [get_commits, hrun]
    rw [h2] at hok
    injection hok with hok
    have hcs : ([] : List Commit) = cs := congrArg Prod.fst hok
    intro c hc
    rw [← hcs] at hc
    cases hc
  | some output =>
    by_cases hout : output = ""
    · subst hout
      have h2 : get_commits env = .ok ([], []) := by simp [get_commits, hrun]
      rw [h2] at hok
      injection hok with hok
      have hcs : ([] : List Commit) = cs := congrArg Prod.fst hok
      intro c hc
      rw [← hcs] at hc
      cases hc
    · have h2 : get_commits env = processLines env (pySplit output '\n').length 0
          (pySplit output '\n') [] [Msg.processing (pySplit output '\n').length] := by
        simp [get_commits, hrun, hout]
      rw [h2] at hok
      exact processLines_nonneg (pySplit output '\n') env _ 0 [] _ cs msgs hok hstats
        (fun c hc => absurd hc (List.not_mem_nil c))

/-- C4 witness: a commit with ordinary positive counts. -/
theorem commit_counts_nonneg_of_nonneg_fields_witness :
    0 ≤ recPositive.linesAdded ∧ 0 ≤ recPositive.linesRemoved := by
  have hconst : statsOkB (run_git_command (⟨0, "1\t2\ta", ""⟩ : CmdResult)) = true := by
    decide
  exact commit_counts_nonneg_of_nonneg_fields envPositiveCounts [recPositive]
    [Msg.processing 1] (by decide) (fun _ => hconst) recPositive (by simp)

/-- C5 counterexample: with ten history lines of which the first is
malformed, only nine records are ever constructed, yet a progress
message `Processed 10/10` is emitted (after the ninth record, because
the tenth line index is divisible by ten) — so messages do not appear
exactly after every tenth successfully constructed record. -/
theorem progress_message_before_ten_records :
    get_commits envTenLines =
        .ok (List.replicate 9 recTen, [Msg.processing 10, Msg.processed 10 10]) ∧
      (List.replicate 9 recTen).length = 9 := by
  constructor
  · decide
  · decide

/-- C5 (amended): the first message of a completed run announces the
number of history lines (not of records), and an incremental message is
emitted exactly at each line whose one-based line index is divisible by
ten and which produced a record — the cadence follows the line index,
counting skipped lines, not the record count. -/
theorem progress_messages_by_line_index (env : GitEnv) (h : goodHistory env) :
    resultMsgs env = msgSpec env := by
  unfold resultMsgs
  rw [get_commits_eq env h]

/-- C5 witness: the message list of the ten-line environment matches
the line-index specification. -/
theorem progress_messages_by_line_index_witness :
    resultMsgs envTenLines = msgSpec envTenLines :=
  progress_messages_by_line_index envTenLines (by decide)

/-- C6: the worked example — history line `abc123|Ada|ada@x.com|1700000000`
with stats `10 2 file.go` (tab-separated) yields exactly the claimed
record, the Unix timestamp being rendered as ISO-8601 UTC with a
literal Z suffix at whole-second precision. -/
theorem example_record_and_timestamp :
    get_commits envTimestampDemo =
        .ok ([⟨"abc123", "Ada", "ada@x.com", "2023-11-14T22:13:20Z", 10, 2, ["file.go"]⟩],
          [Msg.processing 1]) ∧
      format_timestamp "1700000000" = some "2023-11-14T22:13:20Z" := by
  constructor
  · decide
  · decide

/-- C7 counterexample: on a nonzero exit status `run_git_command`
completes normally with the bare sentinel `none`; two failures with
different exit statuses and different standard-error texts give the
same result, so no error value carrying the exit status and the
standard-error text reaches the caller. -/
theorem run_git_command_failure_returns_sentinel :
    run_git_command ⟨1, "", "disk on fire"⟩ = none ∧
      run_git_command ⟨1, "", "disk on fire"⟩ = run_git_command ⟨2, "", "permission denied"⟩ := by
  constructor
  · decide
  · decide

/-- C7 (amended): on every nonzero exit status the command runner
catches the subprocess error internally, reports it on standard output,
and returns the data-free sentinel `None`; the run continues and no
error value propagates to the caller. -/
theorem run_git_command_none_on_nonzero_exit (r : CmdResult) (h : r.exitCode ≠ 0) :
    run_git_command r = none := by
  unfold run_git_command
  rw [if_neg h]

/-- C7 witness. -/
theorem run_git_command_none_on_nonzero_exit_witness :
    run_git_command ⟨1, "out", "boom"⟩ = none :=
  run_git_command_none_on_nonzero_exit ⟨1, "out", "boom"⟩ (by decide)

/-- C8: a failed or empty per-commit detail query yields zero counts
and no files; a completed run includes, for every history line that
parses and whose detail fetch came back empty, a record with those zero
values; and whether the run completes at all never depends on the
per-commit detail results. -/
theorem empty_details_zeros_and_run_completes :
    (∀ (env : GitEnv) (hsh : String),
        run_git_command (env.showResult hsh) = none ∨
          run_git_command (env.showResult hsh) = some "" →
        get_commit_details env hsh = ⟨0, 0, []⟩) ∧
    (∀ (env : GitEnv) (cs : List Commit) (msgs : List Msg)
        (line p0 p1 p2 p3 : String) (ps : List String) (ts : String),
        get_commits env = .ok (cs, msgs) → line ∈ historyLines env →
        pySplit line '|' = p0 :: p1 :: p2 :: p3 :: ps →
        format_timestamp p3 = some ts →
        get_commit_details env p0 = ⟨0, 0, []⟩ →
        (⟨p0, p1, p2, ts, 0, 0, []⟩ : Commit) ∈ cs) ∧
    (∀ (env : GitEnv) (f : String → CmdResult),
        runOk (get_commits { env with showResult := f }) = runOk (get_commits env)) := by
  refine ⟨?_, ?_, get_commits_runOk_indep⟩
  · intro env hsh h
    unfold get_commit_details
    rcases h with h | h
    · rw [h]; rfl
    · rw [h]; rfl
  · intro env cs msgs line p0 p1 p2 p3 ps ts hok hmem hsplit hts hdet
    obtain ⟨hgood, hcs, hmsgs⟩ := get_commits_ok_inv env cs msgs hok
    have hline : line ≠ "" := by
      intro he
      subst he
      have h0 : pySplit "" '|' = [""] := by decide
      rw [h0] at hsplit
      simp at hsplit
    have hrec : recordOfLine env line = some ⟨p0, p1, p2, ts, 0, 0, []⟩ := by
      unfold recordOfLine
      rw [if_neg hline, hsplit]
      simp [hts, hdet]
    rw [hcs]
    exact List.mem_filterMap.mpr ⟨line, hmem, hrec⟩

/-- C8 witness: a single-commit history whose detail query fails with
exit status 1. -/
theorem empty_details_zeros_and_run_completes_witness :
    get_commit_details envDetailFailure "h" = ⟨0, 0, []⟩ ∧
    (⟨"h", "a", "e", "1970-01-01T00:00:05Z", 0, 0, []⟩ : Commit) ∈
      [(⟨"h", "a", "e", "1970-01-01T00:00:05Z", 0, 0, []⟩ : Commit)] ∧
    runOk (get_commits { envDetailFailure with showResult := fun _ => ⟨0, "1\t1\tz", ""⟩ }) =
      runOk (get_commits envDetailFailure) :=
  ⟨empty_details_zeros_and_run_completes.1 envDetailFailure "h" (Or.inl (by decide)),
   empty_details_zeros_and_run_completes.2.1 envDetailFailure
     [⟨"h", "a", "e", "1970-01-01T00:00:05Z", 0, 0, []⟩] [Msg.processing 1]
     "h|a|e|5" "h" "a" "e" "5" [] "1970-01-01T00:00:05Z"
     (by decide) (by decide) (by decide) (by decide) (by decide),
   empty_details_zeros_and_run_completes.2.2 envDetailFailure _⟩

/-- C10: a stats line with at least three tab-separated fields whose
added or removed field is neither a decimal integer nor a single dash
is skipped atomically — nothing is added to the sums and its path is
not recorded — and the fold continues with the remaining lines; the
concrete two-line output shows the malformed first line contributing
nothing while the second is still processed. -/
theorem unparseable_stat_line_skipped_atomically :
    (∀ (acc : Details) (line p0 p1 p2 : String) (ps : List String) (rest : List String),
        pySplit line '\t' = p0 :: p1 :: p2 :: ps →
        fieldVal p0 = none ∨ fieldVal p1 = none →
        processStatLine acc line = acc ∧
          (line :: rest).foldl processStatLine acc = rest.foldl processStatLine acc) ∧
    detailsOfOutput (some "x\ty\ta.txt\n3\t4\tb.txt") = ⟨3, 4, ["b.txt"]⟩ := by
  constructor
  · intro acc line p0 p1 p2 ps rest hsplit hbad
    have hline : line ≠ "" := by
      intro he
      subst he
      have h0 : pySplit "" '\t' = [""] := by decide
      rw [h0] at hsplit
      simp at hsplit
    have hskip : processStatLine acc line = acc := by
      unfold processStatLine
      rw [if_neg hline, hsplit]
      rcases hbad with hbad | hbad
      · simp [hbad]
      · cases h0 : fieldVal p0 <;> simp [h0, hbad]
    exact ⟨hskip, by rw [List.foldl_cons, hskip]⟩
  · decide

/-- C10 witness: the malformed line `x 1 a.txt` (tab-separated, with
non-numeric added field) is skipped and the fold continues. -/
theorem unparseable_stat_line_skipped_atomically_witness :
    processStatLine ⟨0, 0, []⟩ "x\t1\ta.txt" = ⟨0, 0, []⟩ ∧
      ("x\t1\ta.txt" :: ["3\t4\tb.txt"]).foldl processStatLine ⟨0, 0, []⟩ =
        ["3\t4\tb.txt"].foldl processStatLine ⟨0, 0, []⟩ :=
  unparseable_stat_line_skipped_atomically.1 ⟨0, 0, []⟩ "x\t1\ta.txt" "x" "1" "a.txt" []
    ["3\t4\tb.txt"] (by decide) (Or.inl (by decide))

/-! Lemmas for the JSON round trip: characters and whitespace. -/

lemma char_valid_nat (c : Char) :
    c.toNat < 55296 ∨ (57343 < c.toNat ∧ c.toNat < 1114112) := c.valid

lemma hexVal_hexDigitChar : ∀ k : Nat, k < 16 → hexVal (hexDigitChar k) = some k := by
  decide

lemma char_ne_of_toNat_ne {c d : Char} (h : c.toNat ≠ d.toNat) : c ≠ d :=
  fun hc => h (congrArg Char.toNat hc)

lemma skipWs_cons_not (c : Char) (l : List Char) (h : isJsonWs c = false) :
    skipWs (c :: l) = c :: l := by
  simp [skipWs, List.dropWhile_cons, h]

lemma skipWs_cons_ws (c : Char) (l : List Char) (h : isJsonWs c = true) :
    skipWs (c :: l) = skipWs l := by
  simp [skipWs, List.dropWhile_cons, h]

lemma skipWs_all_ws (pre : List Char) (l : List Char) (h : pre.all isJsonWs = true) :
    skipWs (pre ++ l) = skipWs l := by
  induction pre with
  | nil => rfl
  | cons c cs ih =>
    rw [List.all_cons, Bool.and_eq_true] at h
    rw [List.cons_append, skipWs_cons_ws c _ h.1]
    exact ih h.2

lemma wsp_all_ws (n : Nat) : (wsp n).all isJsonWs = true := by
  induction n with
  | zero => rfl
  | succ n ih =>
    rw [wsp, List.replicate_succ, List.all_cons, Bool.and_eq_true]
    exact ⟨by decide, ih⟩

lemma parseHex4_hex4 (v : Nat) (hv : v < 65536) (rest : List Char) :
    parseHex4 (hex4 v ++ rest) = some (v, rest) := by
  simp only [hex4, List.cons_append, List.nil_append, parseHex4]
  rw [hexVal_hexDigitChar (v / 4096 % 16) (by omega),
    hexVal_hexDigitChar (v / 256 % 16) (by omega),
    hexVal_hexDigitChar (v / 16 % 16) (by omega),
    hexVal_hexDigitChar (v % 16) (by omega)]
  have hn : ((v / 4096 % 16 * 16 + v / 256 % 16) * 16 + v / 16 % 16) * 16 + v % 16 = v := by
    omega
  simp only [hn]

lemma parseEscSeq_u_unfold (rest1 : List Char) :
    parseEscSeq ('u' :: rest1) =
      match parseHex4 rest1 with
      | some (n, rest2) =>
        if 55296 ≤ n ∧ n < 56320 then
          match rest2 with
          | s1 :: s2 :: rest2a =>
            if s1 = '\\' ∧ s2 = 'u' then
              match parseHex4 rest2a with
              | some (m, rest3) =>
                if 56320 ≤ m ∧ m < 57344 then
                  some (Char.ofNat (65536 + (n - 55296) * 1024 + (m - 56320)), rest3)
                else none
              | none => none
            else none
          | _ => none
        else if 56320 ≤ n ∧ n < 57344 then none
        else some (Char.ofNat n, rest2)
      | none => none := rfl

lemma parseEscSeq_u (v : Nat) (hv1 : v < 65536) (hv2 : ¬ (55296 ≤ v ∧ v < 57344))
    (tl : List Char) :
    parseEscSeq ('u' :: hex4 v ++ tl) = some (Char.ofNat v, tl) := by
  rw [List.cons_append, parseEscSeq_u_unfold]
  simp only [parseHex4_hex4 v hv1 tl]
  rw [if_neg (by omega : ¬ (55296 ≤ v ∧ v < 56320)),
    if_neg (by omega : ¬ (56320 ≤ v ∧ v < 57344))]

lemma parseEscSeq_surrogates (v : Nat) (h1 : 65536 ≤ v) (h2 : v < 1114112)
    (tl : List Char) :
    parseEscSeq ('u' :: hex4 (55296 + (v - 65536) / 1024) ++
      ('\\' :: 'u' :: hex4 (56320 + (v - 65536) % 1024)) ++ tl) = some (Char.ofNat v, tl) := by
  simp only [List.cons_append, List.append_assoc]
  rw [parseEscSeq_u_unfold]
  simp only [parseHex4_hex4 (55296 + (v - 65536) / 1024) (by omega),
    if_pos (by omega : 55296 ≤ 55296 + (v - 65536) / 1024 ∧
      55296 + (v - 65536) / 1024 < 56320),
    if_pos (by decide : ('\\' : Char) = '\\' ∧ ('u' : Char) = 'u'),
    parseHex4_hex4 (56320 + (v - 65536) % 1024) (by omega),
    if_pos (by omega : 56320 ≤ 56320 + (v - 65536) % 1024 ∧
      56320 + (v - 65536) % 1024 < 57344), and_self, if_true]
  have hcomb : 65536 + (55296 + (v - 65536) / 1024 - 55296) * 1024 +
      (56320 + (v - 65536) % 1024 - 56320) = v := by omega
  rw [hcomb]

lemma parseStrCharsF_step_esc (f : Nat) (seq tl : List Char) (c : Char)
    (h : parseEscSeq (seq ++ tl) = some (c, tl)) :
    parseStrCharsF (f + 1) ('\\' :: (seq ++ tl)) =
      (parseStrCharsF f tl).map (fun p => (c :: p.1, p.2)) := by
  simp only [parseStrCharsF, if_true, if_false, h]
  cases parseStrCharsF f tl with
  | none => rfl
  | some p => rfl

lemma parseStrCharsF_step_plain (f : Nat) (c : Char) (tl : List Char)
    (h1 : ¬ c = '"') (h2 : ¬ c = '\\') (h3 : 32 ≤ c.toNat) :
    parseStrCharsF (f + 1) (c :: tl) =
      (parseStrCharsF f tl).map (fun p => (c :: p.1, p.2)) := by
  simp only [parseStrCharsF]
  rw [if_neg h1, if_neg h2, if_neg (by omega : ¬ c.toNat < 32)]
  cases parseStrCharsF f tl with
  | none => rfl
  | some p => rfl

lemma parseStrCharsF_escapeChar (f : Nat) (c : Char) (tl : List Char) :
    parseStrCharsF (f + 1) (escapeChar c ++ tl) =
      (parseStrCharsF f tl).map (fun p => (c :: p.1, p.2)) := by
  have hv := char_valid_nat c
  unfold escapeChar
  split_ifs with h1 h2 h3 h4 h5 h6 h7 h8 h9
  · subst h1
    exact parseStrCharsF_step_esc f ['"'] tl '"' (by simp [parseEscSeq, escCharOf])
  · subst h2
    exact parseStrCharsF_step_esc f ['\\'] tl '\\' (by simp [parseEscSeq, escCharOf])
  · subst h3
    exact parseStrCharsF_step_esc f ['n'] tl '\n' (by simp [parseEscSeq, escCharOf])
  · subst h4
    exact parseStrCharsF_step_esc f ['r'] tl '\r' (by simp [parseEscSeq, escCharOf])
  · subst h5
    exact parseStrCharsF_step_esc f ['t'] tl '\t' (by simp [parseEscSeq, escCharOf])
  · have hc : Char.ofNat 8 = c := by rw [← h6, Char.ofNat_toNat]
    rw [show (['\\', 'b'] : List Char) ++ tl = '\\' :: (['b'] ++ tl) from rfl]
    rw [parseStrCharsF_step_esc f ['b'] tl (Char.ofNat 8) (by simp [parseEscSeq, escCharOf]),
      hc]
  · have hc : Char.ofNat 12 = c := by rw [← h7, Char.ofNat_toNat]
    rw [show (['\\', 'f'] : List Char) ++ tl = '\\' :: (['f'] ++ tl) from rfl]
    rw [parseStrCharsF_step_esc f ['f'] tl (Char.ofNat 12) (by simp [parseEscSeq, escCharOf]),
      hc]
  · exact parseStrCharsF_step_plain f c tl h1 h2 (by omega)
  · rw [show ('\\' :: 'u' :: hex4 c.toNat) ++ tl = '\\' :: (('u' :: hex4 c.toNat ++ tl)) from
      rfl]
    rw [parseStrCharsF_step_esc f ('u' :: hex4 c.toNat) tl (Char.ofNat c.toNat)
      (parseEscSeq_u c.toNat (by omega) (by omega) tl), Char.ofNat_toNat]
  · have hshape : (('\\' :: 'u' :: hex4 (55296 + (c.toNat - 65536) / 1024)) ++
        ('\\' :: 'u' :: hex4 (56320 + (c.toNat - 65536) % 1024))) ++ tl =
        '\\' :: (('u' :: hex4 (55296 + (c.toNat - 65536) / 1024) ++
          ('\\' :: 'u' :: hex4 (56320 + (c.toNat - 65536) % 1024))) ++ tl) := by
      simp [List.cons_append, List.append_assoc]
    rw [hshape]
    have hseq : parseEscSeq (('u' :: hex4 (55296 + (c.toNat - 65536) / 1024) ++
        ('\\' :: 'u' :: hex4 (56320 + (c.toNat - 65536) % 1024))) ++ tl) =
        some (Char.ofNat c.toNat, tl) := by
      have hsur := parseEscSeq_surrogates c.toNat (by omega) (by omega) tl
      rw [← hsur]
    rw [parseStrCharsF_step_esc f _ tl (Char.ofNat c.toNat) hseq, Char.ofNat_toNat]

lemma parseStrCharsF_quote (f : Nat) (tl : List Char) :
    parseStrCharsF (f + 1) ('"' :: tl) = some ([], tl) := by
  simp [parseStrCharsF]

lemma escapeChar_length_pos (c : Char) : 0 < (escapeChar c).length := by
  unfold escapeChar
  split_ifs <;> simp [hex4]

lemma flatMap_escape_length (cs : List Char) :
    cs.length ≤ (cs.flatMap escapeChar).length := by
  induction cs with
  | nil => simp
  | cons c cs ih =>
    rw [List.flatMap_cons, List.length_append, List.length_cons]
    have := escapeChar_length_pos c
    omega

lemma parseStrCharsF_body (cs : List Char) :
    ∀ (tl : List Char) (f : Nat), cs.length < f →
      parseStrCharsF f (cs.flatMap escapeChar ++ ('"' :: tl)) = some (cs, tl) := by
  induction cs with
  | nil =>
    intro tl f hf
    obtain ⟨f1, rfl⟩ : ∃ k, f = k + 1 := ⟨f - 1, by omega⟩
    rw [List.flatMap_nil, List.nil_append, parseStrCharsF_quote]
  | cons c cs ih =>
    intro tl f hf
    obtain ⟨f1, rfl⟩ : ∃ k, f = k + 1 := ⟨f - 1, by omega⟩
    rw [List.flatMap_cons, List.append_assoc, parseStrCharsF_escapeChar f1 c _]
    rw [ih tl f1 (by simpa using Nat.lt_of_succ_lt_succ hf)]
    rfl

lemma parseStrChars_render (s : String) (tl : List Char) :
    parseStrChars (s.data.flatMap escapeChar ++ ('"' :: tl)) = some (s.data, tl) := by
  unfold parseStrChars
  apply parseStrCharsF_body
  have := flatMap_escape_length s.data
  simp only [List.length_append, List.length_cons]
  omega

lemma char_ofNat_digit_toNat : ∀ k : Nat, k < 10 → (Char.ofNat (48 + k)).toNat = 48 + k := by
  decide

lemma natDigitsAux_all_digits :
    ∀ (fuel n : Nat), n < fuel → ∀ c ∈ natDigitsAux fuel n, isDigitB c = true := by
  intro fuel
  induction fuel with
  | zero => intro n h; omega
  | succ f ih =>
    intro n hn c hc
    simp only [natDigitsAux] at hc
    by_cases h10 : n < 10
    · rw [if_pos h10] at hc
      simp at hc
      subst hc
      simp [isDigitB, char_ofNat_digit_toNat n h10]
      omega
    · rw [if_neg h10] at hc
      rcases List.mem_append.mp hc with hc | hc
      · exact ih (n / 10) (by omega) c hc
      · simp at hc
        subst hc
        simp [isDigitB, char_ofNat_digit_toNat (n % 10) (by omega)]
        omega

lemma natDigitsAux_ne_nil (f n : Nat) : natDigitsAux (f + 1) n ≠ [] := by
  simp only [natDigitsAux]
  by_cases h10 : n < 10
  · rw [if_pos h10]; simp
  · rw [if_neg h10]; simp

lemma digitsToNat_append1 (xs : List Char) (c : Char) :
    digitsToNat (xs ++ [c]) = digitsToNat xs * 10 + (c.toNat - 48) := by
  simp [digitsToNat, List.foldl_append]

lemma digitsToNat_natDigitsAux :
    ∀ (fuel n : Nat), n < fuel → digitsToNat (natDigitsAux fuel n) = n := by
  intro fuel
  induction fuel with
  | zero => intro n h; omega
  | succ f ih =>
    intro n hn
    simp only [natDigitsAux]
    by_cases h10 : n < 10
    · rw [if_pos h10]
      show digitsToNat [Char.ofNat (48 + n)] = n
      simp [digitsToNat, char_ofNat_digit_toNat n h10]
    · rw [if_neg h10, digitsToNat_append1, ih (n / 10) (by omega),
        char_ofNat_digit_toNat (n % 10) (by omega)]
      omega

lemma natDigits_all_digits (n : Nat) : ∀ c ∈ natDigits n, isDigitB c = true :=
  natDigitsAux_all_digits (n + 1) n (by omega)

lemma natDigits_ne_nil (n : Nat) : natDigits n ≠ [] := natDigitsAux_ne_nil n n

lemma digitsToNat_natDigits (n : Nat) : digitsToNat (natDigits n) = n :=
  digitsToNat_natDigitsAux (n + 1) n (by omega)

lemma takeWhile_digits (ds tl : List Char) (hds : ∀ c ∈ ds, isDigitB c = true)
    (htl : notDigitStartB tl = true) :
    (ds ++ tl).takeWhile isDigitB = ds ∧ (ds ++ tl).dropWhile isDigitB = tl := by
  induction ds with
  | nil =>
    simp only [List.nil_append]
    cases tl with
    | nil => simp
    | cons c cs =>
      have hc : isDigitB c = false := by
        have h := htl
        simp [notDigitStartB] at h
        exact h
      simp [List.takeWhile_cons, List.dropWhile_cons, hc]
  | cons d ds ih =>
    have hd : isDigitB d = true := hds d (by simp)
    have ih2 := ih (fun c hc => hds c (by simp [hc]))
    simp [List.takeWhile_cons, List.dropWhile_cons, hd, ih2.1, ih2.2]

lemma digit_ne_minus {d : Char} (h : isDigitB d = true) : ¬ d = '-' := by
  intro he
  subst he
  exact absurd h (by decide)

lemma parseNumber_natDigits (n : Nat) (tl : List Char) (htl : notDigitStartB tl = true) :
    parseNumber (natDigits n ++ tl) = some ((n : Int), tl) := by
  obtain ⟨d, ds, hd⟩ : ∃ d ds, natDigits n = d :: ds := by
    cases h : natDigits n with
    | nil => exact absurd h (natDigits_ne_nil n)
    | cons d ds => exact ⟨d, ds, rfl⟩
  have hdd : isDigitB d = true := natDigits_all_digits n d (by rw [hd]; simp)
  have htk := takeWhile_digits (natDigits n) tl (natDigits_all_digits n) htl
  rw [hd] at htk ⊢
  rw [List.cons_append]
  simp only [parseNumber]
  rw [if_neg (digit_ne_minus hdd), ← List.cons_append, htk.1, htk.2,
    if_neg (by simp : ¬ (d :: ds) = []), ← hd, digitsToNat_natDigits]

lemma parseNumber_renderInt (i : Int) (tl : List Char) (htl : notDigitStartB tl = true) :
    parseNumber (renderInt i ++ tl) = some (i, tl) := by
  unfold renderInt
  by_cases hi : i < 0
  · rw [if_pos hi, List.cons_append]
    simp only [parseNumber, if_true]
    have htk := takeWhile_digits (natDigits (-i).toNat) tl (natDigits_all_digits _) htl
    rw [htk.1, htk.2, if_neg (natDigits_ne_nil _), digitsToNat_natDigits]
    have hcast : (((-i).toNat : Int)) = -i := Int.toNat_of_nonneg (by omega)
    rw [hcast, neg_neg]
  · rw [if_neg hi, parseNumber_natDigits i.toNat tl htl,
      Int.toNat_of_nonneg (by omega)]

lemma nlwsp_all_ws (n : Nat) : ('\n' :: wsp n).all isJsonWs = true := by
  rw [List.all_cons, Bool.and_eq_true]
  exact ⟨by decide, wsp_all_ws n⟩

lemma space_all_ws : ([' '] : List Char).all isJsonWs = true := by decide

lemma parseVal_string (s : String) (pre tl : List Char) (hpre : pre.all isJsonWs = true)
    (f : Nat) :
    parseVal (f + 1) (pre ++ (renderString s ++ tl)) = some (.str s, tl) := by
  simp only [parseVal]
  rw [skipWs_all_ws pre _ hpre]
  rw [show renderString s ++ tl = '"' :: (s.data.flatMap escapeChar ++ ('"' :: tl)) from by
    simp [renderString, List.cons_append, List.append_assoc]]
  rw [skipWs_cons_not _ _ (by decide)]
  simp only [parseStrChars_render s tl, if_true]

lemma digit_head_facts {c : Char} (h : isDigitB c = true) :
    isJsonWs c = false ∧ ¬ c = '"' ∧ ¬ c = '\x7b' ∧ ¬ c = '[' := by
  have h48 : 48 ≤ c.toNat ∧ c.toNat ≤ 57 := by simpa [isDigitB] using h
  refine ⟨?_, ?_, ?_, ?_⟩
  · simp [isJsonWs]; omega
  · exact char_ne_of_toNat_ne (by have : ('"' : Char).toNat = 34 := rfl; omega)
  · exact char_ne_of_toNat_ne (by have : ('\x7b' : Char).toNat = 123 := rfl; omega)
  · exact char_ne_of_toNat_ne (by have : ('[' : Char).toNat = 91 := rfl; omega)

lemma parseVal_int (i : Int) (pre tl : List Char) (hpre : pre.all isJsonWs = true)
    (htl : notDigitStartB tl = true) (f : Nat) :
    parseVal (f + 1) (pre ++ (renderInt i ++ tl)) = some (.int i, tl) := by
  simp only [parseVal]
  rw [skipWs_all_ws pre _ hpre]
  obtain ⟨d, ds, hd, hdprop⟩ : ∃ d ds, renderInt i ++ tl = d :: ds ∧
      (isDigitB d = true ∨ d = '-') := by
    unfold renderInt
    by_cases hi : i < 0
    · rw [if_pos hi, List.cons_append]
      exact ⟨'-', natDigits (-i).toNat ++ tl, rfl, Or.inr rfl⟩
    · rw [if_neg hi]
      obtain ⟨d, ds, hdig⟩ : ∃ d ds, natDigits i.toNat = d :: ds := by
        cases h : natDigits i.toNat with
        | nil => exact absurd h (natDigits_ne_nil _)
        | cons d ds => exact ⟨d, ds, rfl⟩
      rw [hdig, List.cons_append]
      exact ⟨d, ds ++ tl, rfl,
        Or.inl (natDigits_all_digits i.toNat d (by rw [hdig]; simp))⟩
  have hfacts : isJsonWs d = false ∧ ¬ d = '"' ∧ ¬ d = '\x7b' ∧ ¬ d = '[' := by
    rcases hdprop with hdig | hminus
    · exact digit_head_facts hdig
    · subst hminus
      exact ⟨by decide, by decide, by decide, by decide⟩
  rw [hd, skipWs_cons_not _ _ hfacts.1]
  simp only [if_neg hfacts.2.1, if_neg hfacts.2.2.1, if_neg hfacts.2.2.2]
  rw [← hd]
  simp only [parseNumber_renderInt i tl htl]

lemma skipWs_files_item (f1 : String) (X : List Char) :
    skipWs (('\n' :: wsp 8) ++ (renderString f1 ++ X)) =
      '"' :: (f1.data.flatMap escapeChar ++ ('"' :: X)) := by
  rw [skipWs_all_ws _ _ (nlwsp_all_ws 8)]
  rw [show renderString f1 ++ X = '"' :: (f1.data.flatMap escapeChar ++ ('"' :: X)) from by
    simp [renderString, List.cons_append, List.append_assoc]]
  exact skipWs_cons_not _ _ (by decide)

lemma parseItems_files :
    ∀ (fs : List String) (f1 : String) (acc : List Json) (tl : List Char) (F fuel : Nat),
      1 ≤ F → fs.length < fuel →
      parseItems (parseVal F) fuel
          (('\n' :: wsp 8) ++ (renderString f1 ++ (renderFilesRest fs ++ tl))) acc =
        some (.arr (acc ++ (f1 :: fs).map Json.str), tl) := by
  intro fs
  induction fs with
  | nil =>
    intro f1 acc tl F fuel hF hfuel
    obtain ⟨fl, rfl⟩ : ∃ k, fuel = k + 1 := ⟨fuel - 1, by omega⟩
    have hv1 : parseVal F (('\n' :: wsp 8) ++ (renderString f1 ++ (renderFilesRest [] ++ tl))) =
        some (.str f1, renderFilesRest [] ++ tl) := by
      obtain ⟨F1, rfl⟩ : ∃ k, F = k + 1 := ⟨F - 1, by omega⟩
      exact parseVal_string f1 ('\n' :: wsp 8) _ (nlwsp_all_ws 8) F1
    have hsk : skipWs (renderFilesRest [] ++ tl) = ']' :: tl := by
      rw [show renderFilesRest [] ++ tl = ('\n' :: wsp 6) ++ (']' :: tl) from by
        simp [renderFilesRest, List.cons_append, List.append_assoc]]
      rw [skipWs_all_ws _ _ (nlwsp_all_ws 6)]
      exact skipWs_cons_not _ _ (by decide)
    simp only [parseItems, hv1, hsk]
    simp
  | cons f2 fs ih =>
    intro f1 acc tl F fuel hF hfuel
    obtain ⟨fl, rfl⟩ : ∃ k, fuel = k + 1 := ⟨fuel - 1, by omega⟩
    have hv1 : parseVal F
        (('\n' :: wsp 8) ++ (renderString f1 ++ (renderFilesRest (f2 :: fs) ++ tl))) =
        some (.str f1, renderFilesRest (f2 :: fs) ++ tl) := by
      obtain ⟨F1, rfl⟩ : ∃ k, F = k + 1 := ⟨F - 1, by omega⟩
      exact parseVal_string f1 ('\n' :: wsp 8) _ (nlwsp_all_ws 8) F1
    have hsk : skipWs (renderFilesRest (f2 :: fs) ++ tl) =
        ',' :: (('\n' :: wsp 8) ++ (renderString f2 ++ (renderFilesRest fs ++ tl))) := by
      rw [show renderFilesRest (f2 :: fs) ++ tl =
          ',' :: (('\n' :: wsp 8) ++ (renderString f2 ++ (renderFilesRest fs ++ tl))) from by
        simp [renderFilesRest, List.cons_append, List.append_assoc]]
      exact skipWs_cons_not _ _ (by decide)
    simp only [parseItems, hv1, hsk]
    rw [ih f2 (acc ++ [Json.str f1]) tl F fl hF (by simpa using Nat.lt_of_succ_lt_succ hfuel)]
    simp

lemma parseVal_files (files : List String) (pre tl : List Char)
    (hpre : pre.all isJsonWs = true) (F : Nat) (hF : files.length + 1 ≤ F) :
    parseVal (F + 1) (pre ++ (renderFiles files ++ tl)) =
      some (.arr (files.map Json.str), tl) := by
  simp only [parseVal]
  rw [skipWs_all_ws pre _ hpre]
  cases files with
  | nil =>
    rw [show renderFiles [] ++ tl = '[' :: (']' :: tl) from rfl]
    rw [skipWs_cons_not _ _ (by decide)]
    simp only [if_true, if_false, if_neg (by decide : ¬ ('[' : Char) = '"'),
      if_neg (by decide : ¬ ('[' : Char) = '\x7b'), if_pos (rfl : ('[' : Char) = '[')]
    rw [skipWs_cons_not _ _ (by decide)]
    rfl
  | cons f1 fs =>
    rw [show renderFiles (f1 :: fs) ++ tl =
        '[' :: (('\n' :: wsp 8) ++ (renderString f1 ++ (renderFilesRest fs ++ tl))) from by
      simp [renderFiles, List.cons_append, List.append_assoc]]
    rw [skipWs_cons_not _ _ (by decide)]
    simp only [if_true, if_false, if_neg (by decide : ¬ ('[' : Char) = '"'),
      if_neg (by decide : ¬ ('[' : Char) = '\x7b'), if_pos (rfl : ('[' : Char) = '[')]
    rw [skipWs_files_item f1 (renderFilesRest fs ++ tl)]
    have harm := parseItems_files fs f1 [] tl F F (by omega)
      (by
        have : (f1 :: fs).length + 1 ≤ F := hF
        simp at this
        omega)
    simp only [List.nil_append] at harm
    simp only [harm]
    rfl

lemma skipWs_memChunk (n : Nat) (key : String) (vr tail : List Char) :
    skipWs (memChunk n key vr tail) =
      '"' :: (key.data.flatMap escapeChar ++ ('"' :: (':' :: ' ' :: (vr ++ tail)))) := by
  unfold memChunk
  rw [skipWs_all_ws _ _ (nlwsp_all_ws n)]
  rw [show renderString key ++ (':' :: ' ' :: (vr ++ tail)) =
      '"' :: (key.data.flatMap escapeChar ++ ('"' :: (':' :: ' ' :: (vr ++ tail)))) from by
    simp [renderString, List.cons_append, List.append_assoc]]
  exact skipWs_cons_not _ _ (by decide)

lemma parseMembers_step (pv : List Char → Option (Json × List Char)) (f n : Nat)
    (key : String) (vr : List Char) (v : Json) (tail : List Char)
    (acc : List (String × Json)) (hv : pv (' ' :: (vr ++ tail)) = some (v, tail)) :
    parseMembers pv (f + 1) (memChunk n key vr tail) acc =
      match skipWs tail with
      | ',' :: r4 => parseMembers pv f r4 (acc ++ [(key, v)])
      | '\x7d' :: r4 => some (.obj (acc ++ [(key, v)]), r4)
      | _ => none := by
  simp only [parseMembers, skipWs_memChunk n key vr tail, if_true, if_false,
    parseStrChars_render key (':' :: ' ' :: (vr ++ tail)),
    skipWs_cons_not ':' _ (by decide), hv]

lemma parseMembers_step_comma (pv : List Char → Option (Json × List Char)) (f g n : Nat)
    (hf : f = g + 1) (key : String) (vr : List Char) (v : Json) (next : List Char)
    (acc : List (String × Json))
    (hv : pv (' ' :: (vr ++ (',' :: next))) = some (v, ',' :: next)) :
    parseMembers pv f (memChunk n key vr (',' :: next)) acc =
      parseMembers pv g next (acc ++ [(key, v)]) := by
  subst hf
  rw [parseMembers_step pv g n key vr v _ acc hv]
  rw [skipWs_cons_not ',' next (by decide)]
  rfl

lemma parseMembers_step_close (pv : List Char → Option (Json × List Char)) (f g n m : Nat)
    (hf : f = g + 1) (key : String) (vr : List Char) (v : Json) (tl : List Char)
    (acc : List (String × Json))
    (hv : pv (' ' :: (vr ++ (('\n' :: wsp m) ++ ('\x7d' :: tl)))) =
      some (v, ('\n' :: wsp m) ++ ('\x7d' :: tl))) :
    parseMembers pv f (memChunk n key vr (('\n' :: wsp m) ++ ('\x7d' :: tl))) acc =
      some (.obj (acc ++ [(key, v)]), tl) := by
  subst hf
  rw [parseMembers_step pv g n key vr v _ acc hv]
  rw [skipWs_all_ws _ _ (nlwsp_all_ws m), skipWs_cons_not '\x7d' tl (by decide)]
  rfl

lemma parseVal_string_m (s : String) (tl : List Char) (F : Nat) (hF : 1 ≤ F) :
    parseVal F (' ' :: (renderString s ++ tl)) = some (.str s, tl) := by
  obtain ⟨f, rfl⟩ : ∃ f, F = f + 1 := ⟨F - 1, by omega⟩
  have h := parseVal_string s [' '] tl space_all_ws f
  rwa [List.singleton_append] at h

lemma parseVal_int_comma (i : Int) (next : List Char) (F : Nat) (hF : 1 ≤ F) :
    parseVal F (' ' :: (renderInt i ++ (',' :: next))) = some (.int i, ',' :: next) := by
  obtain ⟨f, rfl⟩ : ∃ f, F = f + 1 := ⟨F - 1, by omega⟩
  have h := parseVal_int i [' '] (',' :: next) space_all_ws (by simp [notDigitStartB, isDigitB]) f
  rwa [List.singleton_append] at h

lemma parseVal_files_m (files : List String) (tl : List Char) (F : Nat)
    (hF : files.length + 2 ≤ F) :
    parseVal F (' ' :: (renderFiles files ++ tl)) = some (.arr (files.map Json.str), tl) := by
  obtain ⟨f, rfl⟩ : ∃ f, F = f + 1 := ⟨F - 1, by omega⟩
  have h := parseVal_files files [' '] tl space_all_ws f (by omega)
  rwa [List.singleton_append] at h

lemma parseVal_commit (c : Commit) (pre tl : List Char) (hpre : pre.all isJsonWs = true)
    (F : Nat) (hF : c.filesModified.length + 9 ≤ F) :
    parseVal (F + 1) (pre ++ (renderCommit c ++ tl)) = some (commitToJson c, tl) := by
  simp only [parseVal]
  rw [skipWs_all_ws pre _ hpre]
  rw [show renderCommit c ++ tl = '\x7b' ::
      memChunk 6 "hash" (renderString c.hash) (',' ::
      memChunk 6 "author" (renderString c.author) (',' ::
      memChunk 6 "email" (renderString c.email) (',' ::
      memChunk 6 "timestamp" (renderString c.timestamp) (',' ::
      memChunk 6 "linesAdded" (renderInt c.linesAdded) (',' ::
      memChunk 6 "linesRemoved" (renderInt c.linesRemoved) (',' ::
      memChunk 6 "filesModified" (renderFiles c.filesModified)
        (('\n' :: wsp 4) ++ ('\x7d' :: tl)))))))) from by
    simp [renderCommit, memChunk, List.cons_append, List.append_assoc]]
  rw [skipWs_cons_not _ _ (by decide)]
  simp only [if_true, if_false, if_neg (by decide : ¬ ('\x7b' : Char) = '"'),
    if_pos (rfl : ('\x7b' : Char) = '\x7b'), skipWs_memChunk]
  rw [parseMembers_step_comma (parseVal F) F (F - 1) 6 (by omega) "hash"
    (renderString c.hash) (Json.str c.hash) _ _ (parseVal_string_m c.hash _ F (by omega))]
  rw [parseMembers_step_comma (parseVal F) (F - 1) (F - 2) 6 (by omega) "author"
    (renderString c.author) (Json.str c.author) _ _ (parseVal_string_m c.author _ F (by omega))]
  rw [parseMembers_step_comma (parseVal F) (F - 2) (F - 3) 6 (by omega) "email"
    (renderString c.email) (Json.str c.email) _ _ (parseVal_string_m c.email _ F (by omega))]
  rw [parseMembers_step_comma (parseVal F) (F - 3) (F - 4) 6 (by omega) "timestamp"
    (renderString c.timestamp) (Json.str c.timestamp) _ _
    (parseVal_string_m c.timestamp _ F (by omega))]
  rw [parseMembers_step_comma (parseVal F) (F - 4) (F - 5) 6 (by omega) "linesAdded"
    (renderInt c.linesAdded) (Json.int c.linesAdded) _ _
    (parseVal_int_comma c.linesAdded _ F (by omega))]
  rw [parseMembers_step_comma (parseVal F) (F - 5) (F - 6) 6 (by omega) "linesRemoved"
    (renderInt c.linesRemoved) (Json.int c.linesRemoved) _ _
    (parseVal_int_comma c.linesRemoved _ F (by omega))]
  rw [parseMembers_step_close (parseVal F) (F - 6) (F - 7) 6 4 (by omega) "filesModified"
    (renderFiles c.filesModified) (Json.arr (c.filesModified.map Json.str)) tl _
    (parseVal_files_m c.filesModified _ F (by omega))]
  simp [commitToJson]

lemma parseItems_commits :
    ∀ (cs : List Commit) (c1 : Commit) (acc : List Json) (tl : List Char) (F fuel : Nat),
      (∀ c ∈ c1 :: cs, c.filesModified.length + 10 ≤ F) → cs.length < fuel →
      parseItems (parseVal F) fuel
          (('\n' :: wsp 4) ++ (renderCommit c1 ++ (renderCommitsRest cs ++ tl))) acc =
        some (.arr (acc ++ (c1 :: cs).map commitToJson), tl) := by
  intro cs
  induction cs with
  | nil =>
    intro c1 acc tl F fuel hF hfuel
    obtain ⟨fl, rfl⟩ : ∃ k, fuel = k + 1 := ⟨fuel - 1, by omega⟩
    have hF1 := hF c1 (List.mem_cons_self c1 [])
    have hv1 : parseVal F
        (('\n' :: wsp 4) ++ (renderCommit c1 ++ (renderCommitsRest [] ++ tl))) =
        some (commitToJson c1, renderCommitsRest [] ++ tl) := by
      obtain ⟨F1, rfl⟩ : ∃ k, F = k + 1 := ⟨F - 1, by omega⟩
      exact parseVal_commit c1 ('\n' :: wsp 4) _ (nlwsp_all_ws 4) F1 (by omega)
    have hsk : skipWs (renderCommitsRest [] ++ tl) = ']' :: tl := by
      rw [show renderCommitsRest [] ++ tl = ('\n' :: wsp 2) ++ (']' :: tl) from by
        simp [renderCommitsRest, List.cons_append, List.append_assoc]]
      rw [skipWs_all_ws _ _ (nlwsp_all_ws 2)]
      exact skipWs_cons_not _ _ (by decide)
    simp only [parseItems, hv1, hsk]
    simp
  | cons c2 cs ih =>
    intro c1 acc tl F fuel hF hfuel
    obtain ⟨fl, rfl⟩ : ∃ k, fuel = k + 1 := ⟨fuel - 1, by omega⟩
    have hF1 := hF c1 (List.mem_cons_self c1 (c2 :: cs))
    have hv1 : parseVal F
        (('\n' :: wsp 4) ++ (renderCommit c1 ++ (renderCommitsRest (c2 :: cs) ++ tl))) =
        some (commitToJson c1, renderCommitsRest (c2 :: cs) ++ tl) := by
      obtain ⟨F1, rfl⟩ : ∃ k, F = k + 1 := ⟨F - 1, by omega⟩
      exact parseVal_commit c1 ('\n' :: wsp 4) _ (nlwsp_all_ws 4) F1 (by omega)
    have hsk : skipWs (renderCommitsRest (c2 :: cs) ++ tl) =
        ',' :: (('\n' :: wsp 4) ++ (renderCommit c2 ++ (renderCommitsRest cs ++ tl))) := by
      rw [show renderCommitsRest (c2 :: cs) ++ tl =
          ',' :: (('\n' :: wsp 4) ++ (renderCommit c2 ++ (renderCommitsRest cs ++ tl))) from by
        simp [renderCommitsRest, List.cons_append, List.append_assoc]]
      exact skipWs_cons_not _ _ (by decide)
    simp only [parseItems, hv1, hsk]
    rw [ih c2 (acc ++ [commitToJson c1]) tl F fl
      (fun c hc => hF c (List.mem_cons_of_mem c1 hc))
      (by simpa using Nat.lt_of_succ_lt_succ hfuel)]
    simp

lemma parseVal_commits (cs : List Commit) (pre tl : List Char)
    (hpre : pre.all isJsonWs = true) (F : Nat) (hF1 : cs.length + 1 ≤ F)
    (hF2 : ∀ c ∈ cs, c.filesModified.length + 10 ≤ F) :
    parseVal (F + 1) (pre ++ (renderCommits cs ++ tl)) =
      some (.arr (cs.map commitToJson), tl) := by
  simp only [parseVal]
  rw [skipWs_all_ws pre _ hpre]
  cases cs with
  | nil =>
    rw [show renderCommits [] ++ tl = '[' :: (']' :: tl) from rfl]
    rw [skipWs_cons_not _ _ (by decide)]
    simp only [if_true, if_false, if_neg (by decide : ¬ ('[' : Char) = '"'),
      if_neg (by decide : ¬ ('[' : Char) = '\x7b'), if_pos (rfl : ('[' : Char) = '[')]
    rw [skipWs_cons_not _ _ (by decide)]
    rfl
  | cons c1 cs =>
    rw [show renderCommits (c1 :: cs) ++ tl =
        '[' :: (('\n' :: wsp 4) ++ (renderCommit c1 ++ (renderCommitsRest cs ++ tl))) from by
      simp [renderCommits, List.cons_append, List.append_assoc]]
    rw [skipWs_cons_not _ _ (by decide)]
    simp only [if_true, if_false, if_neg (by decide : ¬ ('[' : Char) = '"'),
      if_neg (by decide : ¬ ('[' : Char) = '\x7b'), if_pos (rfl : ('[' : Char) = '[')]
    rw [show skipWs (('\n' :: wsp 4) ++ (renderCommit c1 ++ (renderCommitsRest cs ++ tl))) =
        '\x7b' :: ('\n' :: wsp 6 ++ renderString "hash" ++ ':' :: ' ' :: renderString c1.hash
          ++ ',' :: '\n' :: wsp 6 ++ renderString "author" ++ ':' :: ' ' :: renderString c1.author
          ++ ',' :: '\n' :: wsp 6 ++ renderString "email" ++ ':' :: ' ' :: renderString c1.email
          ++ ',' :: '\n' :: wsp 6 ++ renderString "timestamp"
          ++ ':' :: ' ' :: renderString c1.timestamp
          ++ ',' :: '\n' :: wsp 6 ++ renderString "linesAdded"
          ++ ':' :: ' ' :: renderInt c1.linesAdded
          ++ ',' :: '\n' :: wsp 6 ++ renderString "linesRemoved"
          ++ ':' :: ' ' :: renderInt c1.linesRemoved
          ++ ',' :: '\n' :: wsp 6 ++ renderString "filesModified"
          ++ ':' :: ' ' :: renderFiles c1.filesModified
          ++ '\n' :: wsp 4 ++ ('\x7d' :: (renderCommitsRest cs ++ tl))) from by
      rw [skipWs_all_ws _ _ (nlwsp_all_ws 4)]
      rw [show renderCommit c1 ++ (renderCommitsRest cs ++ tl) =
          '\x7b' :: ('\n' :: wsp 6 ++ renderString "hash" ++ ':' :: ' ' :: renderString c1.hash
            ++ ',' :: '\n' :: wsp 6 ++ renderString "author"
            ++ ':' :: ' ' :: renderString c1.author
            ++ ',' :: '\n' :: wsp 6 ++ renderString "email" ++ ':' :: ' ' :: renderString c1.email
            ++ ',' :: '\n' :: wsp 6 ++ renderString "timestamp"
            ++ ':' :: ' ' :: renderString c1.timestamp
            ++ ',' :: '\n' :: wsp 6 ++ renderString "linesAdded"
            ++ ':' :: ' ' :: renderInt c1.linesAdded
            ++ ',' :: '\n' :: wsp 6 ++ renderString "linesRemoved"
            ++ ':' :: ' ' :: renderInt c1.linesRemoved
            ++ ',' :: '\n' :: wsp 6 ++ renderString "filesModified"
            ++ ':' :: ' ' :: renderFiles c1.filesModified
            ++ '\n' :: wsp 4 ++ ('\x7d' :: (renderCommitsRest cs ++ tl))) from by
        simp [renderCommit, List.cons_append, List.append_assoc]]
      exact skipWs_cons_not _ _ (by decide)]
    have harm := parseItems_commits cs c1 [] tl F F (by
        intro c hc
        exact hF2 c hc) (by
        simp at hF1
        omega)
    simp only [List.nil_append] at harm
    simp only [harm]
    rfl

lemma parseVal_commits_m (cs : List Commit) (tl : List Char) (F : Nat)
    (hF1 : cs.length + 2 ≤ F) (hF2 : ∀ c ∈ cs, c.filesModified.length + 11 ≤ F) :
    parseVal F (' ' :: (renderCommits cs ++ tl)) = some (.arr (cs.map commitToJson), tl) := by
  obtain ⟨f, rfl⟩ : ∃ f, F = f + 1 := ⟨F - 1, by omega⟩
  have h := parseVal_commits cs [' '] tl space_all_ws f (by omega)
    (fun c hc => by have := hF2 c hc; omega)
  rwa [List.singleton_append] at h

lemma parseVal_report (r : Report) (tl : List Char) (F : Nat)
    (hF1 : r.commits.length + 3 ≤ F)
    (hF2 : ∀ c ∈ r.commits, c.filesModified.length + 12 ≤ F) :
    parseVal (F + 1) (renderReport r ++ tl) = some (reportToJson r, tl) := by
  simp only [parseVal]
  rw [show renderReport r ++ tl = '\x7b' ::
      memChunk 2 "repository" (renderString r.repository) (',' ::
      memChunk 2 "commits" (renderCommits r.commits)
        (('\n' :: wsp 0) ++ ('\x7d' :: tl))) from by
    simp [renderReport, memChunk, wsp, List.cons_append, List.append_assoc]]
  rw [skipWs_cons_not _ _ (by decide)]
  simp only [if_true, if_false, if_neg (by decide : ¬ ('\x7b' : Char) = '"'),
    if_pos (rfl : ('\x7b' : Char) = '\x7b'), skipWs_memChunk]
  rw [parseMembers_step_comma (parseVal F) F (F - 1) 2 (by omega) "repository"
    (renderString r.repository) (Json.str r.repository) _ _
    (parseVal_string_m r.repository _ F (by omega))]
  rw [parseMembers_step_close (parseVal F) (F - 1) (F - 2) 2 0 (by omega) "commits"
    (renderCommits r.commits) (Json.arr (r.commits.map commitToJson)) tl _
    (parseVal_commits_m r.commits _ F (by omega)
      (fun c hc => by have := hF2 c hc; omega))]
  simp [reportToJson]

lemma renderString_len (s : String) : 2 ≤ (renderString s).length := by
  simp [renderString, List.length_append, List.length_cons]

lemma renderFilesRest_len (fs : List String) :
    fs.length + 8 ≤ (renderFilesRest fs).length := by
  induction fs with
  | nil => simp [renderFilesRest, wsp]
  | cons f fs ih =>
    have h := renderString_len f
    simp only [renderFilesRest, List.length_cons, List.length_append, wsp,
      List.length_replicate]
    simp only [wsp, List.length_replicate] at ih
    omega

lemma renderFiles_len (fs : List String) :
    fs.length + 2 ≤ (renderFiles fs).length := by
  cases fs with
  | nil => simp [renderFiles]
  | cons f fs =>
    have h := renderString_len f
    have h2 := renderFilesRest_len fs
    simp only [renderFiles, List.length_cons, List.length_append, wsp,
      List.length_replicate]
    omega

lemma renderCommit_len (c : Commit) :
    c.filesModified.length + 12 ≤ (renderCommit c).length := by
  have h := renderFiles_len c.filesModified
  simp only [renderCommit, List.length_cons, List.length_append, wsp,
    List.length_replicate]
  omega

lemma renderCommitsRest_mem_len (cs : List Commit) :
    ∀ c ∈ cs, (renderCommit c).length ≤ (renderCommitsRest cs).length := by
  induction cs with
  | nil => intro c hc; simp at hc
  | cons c2 cs ih =>
    intro c hc
    rcases List.mem_cons.mp hc with h | h
    · subst h
      simp only [renderCommitsRest, List.length_cons, List.length_append, wsp,
        List.length_replicate]
      omega
    · refine le_trans (ih c h) ?_
      simp only [renderCommitsRest, List.length_cons, List.length_append, wsp,
        List.length_replicate]
      omega

lemma renderCommits_mem_len (cs : List Commit) :
    ∀ c ∈ cs, (renderCommit c).length ≤ (renderCommits cs).length := by
  cases cs with
  | nil => intro c hc; simp at hc
  | cons c1 cs =>
    intro c hc
    rcases List.mem_cons.mp hc with h | h
    · subst h
      simp only [renderCommits, List.length_cons, List.length_append, wsp,
        List.length_replicate]
      omega
    · refine le_trans (renderCommitsRest_mem_len cs c h) ?_
      simp only [renderCommits, renderCommitsRest, List.length_cons, List.length_append,
        wsp, List.length_replicate]
      omega

lemma renderCommits_len (cs : List Commit) :
    cs.length + 2 ≤ (renderCommits cs).length := by
  cases cs with
  | nil => simp [renderCommits]
  | cons c1 cs =>
    have h2 : cs.length + 4 ≤ (renderCommitsRest cs).length := by
      induction cs with
      | nil => simp [renderCommitsRest, wsp]
      | cons c2 cs ih =>
        simp only [renderCommitsRest, List.length_cons, List.length_append, wsp,
          List.length_replicate] at ih ⊢
        omega
    simp only [renderCommits, List.length_cons, List.length_append, wsp,
      List.length_replicate]
    omega

lemma renderCommits_le_renderReport (r : Report) :
    (renderCommits r.commits).length ≤ (renderReport r).length := by
  simp only [renderReport, List.length_cons, List.length_append, wsp,
    List.length_replicate]
  omega

lemma renderReport_len_commits (r : Report) :
    r.commits.length + 3 ≤ (renderReport r).length := by
  have h := renderCommits_len r.commits
  simp only [renderReport, List.length_cons, List.length_append, wsp,
    List.length_replicate]
  omega

lemma renderReport_len_files (r : Report) :
    ∀ c ∈ r.commits, c.filesModified.length + 12 ≤ (renderReport r).length := by
  intro c hc
  exact le_trans (renderCommit_len c)
    (le_trans (renderCommits_mem_len r.commits c hc) (renderCommits_le_renderReport r))

/-- C9: serializing any report with `save_to_json` (the text
`json.dump(data, f, indent=2)` writes) and re-parsing the written JSON
with the modelled `json.load` yields exactly the report's JSON value:
the same `repository` string and the same ordered list of commit
objects, each with its seven fields (`hash`, `author`, `email`,
`timestamp`, `linesAdded`, `linesRemoved`, `filesModified`) holding the
same values, the `filesModified` list in the same order — the
serialization round trip is lossless for the report schema. -/
theorem save_to_json_round_trip (data : Report) :
    pyJsonLoad (save_to_json data) = some (reportToJson data) := by
  unfold pyJsonLoad
  have hdata : (save_to_json data).data = renderReport data := rfl
  rw [hdata]
  have h := parseVal_report data [] ((renderReport data).length)
    (renderReport_len_commits data) (renderReport_len_files data)
  rw [List.append_nil] at h
  rw [h]
  rfl
